import Mathlib

/-!
# libaudit-go: netlink wire codec and reply correlation

A shallow embedding of `libaudit.go` (package `libaudit`).

Conventions of the embedding

* A byte is a `Fin 256`.  Unsigned machine integers (`uint16`, `uint32`) are natural
  numbers; a value is reduced modulo `2 ^ w` wherever the Go code converts or wraps.
* Go's `int` is the 64-bit signed integer of the linux/amd64 target: an `Int`, wrapped
  into `[-2^63, 2^63)` where arithmetic can overflow (`wrapInt`).
* `nativeEndian()` is little endian on that target, and the pointer casts of
  `ToWireFormat` and `netlinkMessageHeaderAndData` read and write little-endian bytes.
* A Go slice is a window on a backing array: `ByteSlice.elems` are the `len` visible
  bytes and `ByteSlice.room` the bytes behind them up to the capacity.  Slice
  expressions are bounds-checked the way the Go runtime checks them (`low` against the
  length when `high` is omitted, `high` against the capacity).
* A Go function can return, panic at run time, or wait for ever in a system call
  (`Run`).  A returned `error` is an `Option GoError` (`none` is the nil error).
* System calls are inputs: what `Recvfrom`, `Sendto` and `Getsockname` gave back.
-/

namespace Libaudit

/-! ## Machine-level types -/

/-- One octet. -/
abbrev Byte := Fin 256

/-- How a call of a Go function ends. -/
inductive Run (α : Type) where
  /-- The function returned. -/
  | ret (a : α) : Run α
  /-- A run-time panic (index or slice bounds out of range, negative `make` length). -/
  | panic : Run α
  /-- The function never returns: it waits in a receive that nothing answers. -/
  | blocked : Run α
  /-- Only the embedding can end so: the loop budget of the model was used up.
  `parseLoop_fuel_enough` shows that `parseAuditNetlinkMessage` never does. -/
  | outOfFuel : Run α
  deriving DecidableEq

/-- Sequencing of Go calls: a panic or a blocked call ends the caller too. -/
def Run.bind {α β : Type} (r : Run α) (f : α → Run β) : Run β :=
  match r with
  | .ret a => f a
  | .panic => .panic
  | .blocked => .blocked
  | .outOfFuel => .outOfFuel

/-- Go error values of this package, by the place that creates them. -/
inductive GoError where
  /-- A `syscall.Errno` handed back by a system call. -/
  | errno (code : Nat) : GoError
  /-- The error of `netlinkMessageHeaderAndData`:
  "Nlmsghdr header length unexpected %v, actual packet length %v". -/
  | headerLength (hdrLen : Nat) (packetLen : Int) : GoError
  /-- The sequence check: "Wrong Seq nr %d, expected %d". -/
  | wrongSeq (got expected : Nat) : GoError
  /-- The pid check: "Wrong pid %d, expected %d". -/
  | wrongPid (got expected : Nat) : GoError
  /-- The kernel's answer: "AuditGetReply: error while recieving reply -%d", with the
  signed code that was decoded from the payload. -/
  | kernelReply (code : Int) : GoError
  /-- Errors of `binary.Read`: `io.EOF` on an empty reader. -/
  | eof : GoError
  /-- Errors of `binary.Read`: `io.ErrUnexpectedEOF` on a reader that is too short. -/
  | unexpectedEOF : GoError
  /-- The result of `errors.Wrap(err, msg)` for a non-nil `err`. -/
  | wrap (msg : String) (inner : GoError) : GoError
  deriving DecidableEq

/-- The `errors.Wrap` of github.com/pkg/errors: it annotates a non-nil error and
returns nil when the error it is given is nil. -/
def errorsWrap (err : Option GoError) (msg : String) : Option GoError :=
  match err with
  | none => none
  | some e => some (GoError.wrap msg e)

/-- The linux errno `EINVAL`. -/
def EINVAL : Nat := 22

/-- Two's-complement wrap of a mathematical integer into the 64-bit `int`. -/
def wrapInt (x : Int) : Int :=
  (x + 2 ^ 63) % 2 ^ 64 - 2 ^ 63

/-- The 64 bits of an `int`, as a natural number below `2 ^ 64`. -/
def intBits (x : Int) : Nat :=
  (x % 2 ^ 64).toNat

/-- The `int` with the given 64 bits. -/
def ofBits (n : Nat) : Int :=
  if n % 2 ^ 64 < 2 ^ 63 then ((n % 2 ^ 64 : Nat) : Int) else ((n % 2 ^ 64 : Nat) : Int) - 2 ^ 64

/-- Bitwise and of two `int`s (Go's `&`). -/
def intAnd (x y : Int) : Int :=
  ofBits (Nat.land (intBits x) (intBits y))

/-- Bitwise complement of an `int` (Go's unary `^`). -/
def intNot (x : Int) : Int :=
  -x - 1

/-- A Go byte slice: the visible elements and the spare capacity behind them. -/
structure ByteSlice where
  /-- The `len` visible bytes. -/
  elems : List Byte
  /-- The bytes of the backing array between the length and the capacity. -/
  room : List Byte
  deriving DecidableEq

/-- Go's `len(s)`. -/
def ByteSlice.len (s : ByteSlice) : Int :=
  (s.elems.length : Int)

/-- Go's `cap(s)`. -/
def ByteSlice.cap (s : ByteSlice) : Int :=
  ((s.elems.length + s.room.length : Nat) : Int)

/-- A slice whose capacity equals its length, such as a slice literal. -/
def ByteSlice.ofList (bs : List Byte) : ByteSlice :=
  { elems := bs, room := [] }

/-- The slice expression `s[low:]`: `low` is checked against the length. -/
def ByteSlice.sliceFrom (s : ByteSlice) (low : Int) : Run ByteSlice :=
  if 0 ≤ low ∧ low ≤ s.len then
    .ret { elems := s.elems.drop low.toNat, room := s.room }
  else .panic

/-- The slice expression `s[:high]`: `high` is checked against the capacity. -/
def ByteSlice.sliceTo (s : ByteSlice) (high : Int) : Run ByteSlice :=
  if 0 ≤ high ∧ high ≤ s.cap then
    .ret { elems := (s.elems ++ s.room).take high.toNat,
           room := (s.elems ++ s.room).drop high.toNat }
  else .panic

/-- The low byte of a natural number. -/
def byteOf (n : Nat) : Byte :=
  ⟨n % 256, Nat.mod_lt n (by decide)⟩

/-- Little-endian value of two bytes. -/
def leUint16 (b0 b1 : Byte) : Nat :=
  b0.val + 256 * b1.val

/-- Little-endian value of four bytes (`binary.LittleEndian.Uint32`). -/
def leUint32 (b0 b1 b2 b3 : Byte) : Nat :=
  b0.val + 256 * b1.val + 65536 * b2.val + 16777216 * b3.val

/-- The two little-endian bytes of a `uint16`. -/
def putUint16 (v : Nat) : List Byte :=
  [byteOf v, byteOf (v / 256)]

/-- The four little-endian bytes of a `uint32`. -/
def putUint32 (v : Nat) : List Byte :=
  [byteOf v, byteOf (v / 256), byteOf (v / 65536), byteOf (v / 16777216)]

/-- The conversion `int32(u)` of a `uint32`. -/
def toInt32 (u : Nat) : Int :=
  if u % 2 ^ 32 < 2 ^ 31 then ((u % 2 ^ 32 : Nat) : Int) else ((u % 2 ^ 32 : Nat) : Int) - 2 ^ 32

/-! ## Constants of package `syscall` -/

/-- The size of a netlink message header. -/
def NLMSG_HDRLEN : Nat := 16

/-- The alignment of netlink messages. -/
def NLMSG_ALIGNTO : Nat := 4

/-- The message type of the last part of a multipart message. -/
def NLMSG_DONE : Nat := 3

/-- The message type of an error or acknowledgement. -/
def NLMSG_ERROR : Nat := 2

/-- The request flag. -/
def NLM_F_REQUEST : Nat := 1

/-- The flag that asks for an acknowledgement. -/
def NLM_F_ACK : Nat := 4

/-- The netlink address family. -/
def AF_NETLINK : Nat := 16

/-! ## Data model -/

/-- The header `syscall.NlMsghdr`. -/
structure NlMsghdr where
  /-- Length of the message, header included (`uint32`). -/
  Len : Nat
  /-- Message type (`uint16`), the field `Type` of the Go structure. -/
  Typ : Nat
  /-- Flags (`uint16`). -/
  Flags : Nat
  /-- Sequence number (`uint32`). -/
  Seq : Nat
  /-- Port id of the sender (`uint32`). -/
  Pid : Nat
  deriving DecidableEq

/-- The message `NetlinkMessage` (`syscall.NetlinkMessage`). -/
structure NetlinkMessage where
  /-- The header. -/
  Header : NlMsghdr
  /-- The payload. -/
  Data : ByteSlice
  deriving DecidableEq

/-- The fields of a header are in the range of their Go types. -/
def NlMsghdr.InRange (h : NlMsghdr) : Prop :=
  h.Len < 2 ^ 32 ∧ h.Typ < 2 ^ 16 ∧ h.Flags < 2 ^ 16 ∧ h.Seq < 2 ^ 32 ∧ h.Pid < 2 ^ 32

instance (h : NlMsghdr) : Decidable h.InRange := by
  unfold NlMsghdr.InRange
  infer_instance

/-- The structure `AuditStatus`, ten `uint32` fields. -/
structure AuditStatus where
  /-- Bit mask for valid entries. -/
  Mask : Nat
  /-- 1 = enabled, 0 = disabled. -/
  Enabled : Nat
  /-- Failure-to-log action. -/
  Failure : Nat
  /-- Pid of the auditd process. -/
  Pid : Nat
  /-- Messages rate limit (per second). -/
  RateLimit : Nat
  /-- Waiting messages limit. -/
  BacklogLimit : Nat
  /-- Messages lost. -/
  Lost : Nat
  /-- Messages waiting in queue. -/
  Backlog : Nat
  /-- Audit api version number. -/
  Version : Nat
  /-- Message queue wait timeout. -/
  BacklogWaitTime : Nat
  deriving DecidableEq

/-- Constants that the package declares outside `libaudit.go`; the functions that use
them take them as a parameter.  The message types are converted with `uint16(...)` in
the source, a constant conversion that compiles only for values below `2 ^ 16`. -/
structure AuditConsts where
  /-- The message type `AUDIT_GET` (get status). -/
  AUDIT_GET : Nat
  /-- The message type `AUDIT_SET` (set status). -/
  AUDIT_SET : Nat
  /-- The receive buffer size `MAX_AUDIT_MESSAGE_LENGTH`. -/
  MAX_AUDIT_MESSAGE_LENGTH : Int
  /-- The mask bit `AUDIT_STATUS_ENABLED`. -/
  AUDIT_STATUS_ENABLED : Nat
  /-- The mask bit `AUDIT_STATUS_PID`. -/
  AUDIT_STATUS_PID : Nat
  /-- The mask bit `AUDIT_STATUS_RATE_LIMIT`. -/
  AUDIT_STATUS_RATE_LIMIT : Nat
  /-- The mask bit `AUDIT_STATUS_BACKLOG_LIMIT`. -/
  AUDIT_STATUS_BACKLOG_LIMIT : Nat
  deriving DecidableEq

/-- The values these constants have in the linux audit headers. -/
def linuxConsts : AuditConsts :=
  { AUDIT_GET := 1000, AUDIT_SET := 1001, MAX_AUDIT_MESSAGE_LENGTH := 8970,
    AUDIT_STATUS_ENABLED := 1, AUDIT_STATUS_PID := 4, AUDIT_STATUS_RATE_LIMIT := 8,
    AUDIT_STATUS_BACKLOG_LIMIT := 16 }

/-! ## Wire codec -/

/-- The sixteen bytes of a header in memory: length, type, flags, sequence and pid,
each little endian. -/
def headerBytes (h : NlMsghdr) : List Byte :=
  putUint32 h.Len ++ putUint16 h.Typ ++ putUint16 h.Flags ++ putUint32 h.Seq ++ putUint32 h.Pid

/-- A pointer-cast store `*(*uintN)(unsafe.Pointer(&b[lo:hi][0])) = v`: the slice
expression `b[lo:hi]` panics when `hi` exceeds the capacity of `b`, otherwise the bytes
of `v` overwrite `b` from position `lo`. -/
def storeAt (b : List Byte) (lo hi : Nat) (bytes : List Byte) : Run (List Byte) :=
  if hi ≤ b.length then .ret (b.take lo ++ bytes ++ b.drop hi) else .panic

/-- The method `ToWireFormat`: the bytes of the returned slice. -/
def ToWireFormat (rr : NetlinkMessage) : Run (List Byte) :=
  let b : List Byte := List.replicate rr.Header.Len 0
  (storeAt b 0 4 (putUint32 rr.Header.Len)).bind fun b =>
  (storeAt b 4 6 (putUint16 rr.Header.Typ)).bind fun b =>
  (storeAt b 6 8 (putUint16 rr.Header.Flags)).bind fun b =>
  (storeAt b 8 12 (putUint32 rr.Header.Seq)).bind fun b =>
  (storeAt b 12 16 (putUint32 rr.Header.Pid)).bind fun b =>
  if 16 ≤ b.length then .ret (b.take 16 ++ rr.Data.elems) else .panic

/-- The function `nlmAlignOf`:
`(msglen + syscall.NLMSG_ALIGNTO - 1) & ^(syscall.NLMSG_ALIGNTO - 1)`. -/
def nlmAlignOf (msglen : Int) : Int :=
  intAnd (wrapInt (wrapInt (msglen + (NLMSG_ALIGNTO : Int)) - 1))
    (intNot ((NLMSG_ALIGNTO : Int) - 1))

/-- The header that the cast `(*syscall.NlMsghdr)(unsafe.Pointer(&b[0]))` sees: the
first sixteen bytes, little endian.  A missing byte reads as zero. -/
def headerAt (bs : List Byte) : NlMsghdr :=
  { Len := leUint32 (bs.getD 0 0) (bs.getD 1 0) (bs.getD 2 0) (bs.getD 3 0),
    Typ := leUint16 (bs.getD 4 0) (bs.getD 5 0),
    Flags := leUint16 (bs.getD 6 0) (bs.getD 7 0),
    Seq := leUint32 (bs.getD 8 0) (bs.getD 9 0) (bs.getD 10 0) (bs.getD 11 0),
    Pid := leUint32 (bs.getD 12 0) (bs.getD 13 0) (bs.getD 14 0) (bs.getD 15 0) }

/-- The function `netlinkMessageHeaderAndData`.  `&b[0]` panics on an empty slice.
The result is the header, the slice `b[NLMSG_HDRLEN:]` and the aligned length, or the
error. -/
def netlinkMessageHeaderAndData (b : ByteSlice) :
    Run (Except GoError (NlMsghdr × ByteSlice × Int)) :=
  if b.elems = [] then .panic
  else
    let h := headerAt (b.elems ++ b.room)
    if (h.Len : Int) < (NLMSG_HDRLEN : Int) ∨ (h.Len : Int) > b.len then
      .ret (.error (GoError.headerLength h.Len b.len))
    else
      (b.sliceFrom (NLMSG_HDRLEN : Int)).bind fun dbuf =>
        .ret (.ok (h, dbuf, nlmAlignOf (h.Len : Int)))

/-- The loop of `parseAuditNetlinkMessage`, one iteration for each unit of `fuel`:
`b` is the rest of the buffer and `msgs` the messages appended so far. -/
def parseLoop : Nat → ByteSlice → List NetlinkMessage →
    Run (List NetlinkMessage × Option GoError)
  | fuel, b, msgs =>
    if b.len ≥ (NLMSG_HDRLEN : Int) then
      match fuel with
      | 0 => .outOfFuel
      | fuel + 1 =>
        (netlinkMessageHeaderAndData b).bind fun r =>
          match r with
          | .error err =>
            .ret ([], errorsWrap (some err) "error while parsing NetlinkMessage")
          | .ok (h, dbuf, dlen) =>
            (if dbuf.len = (h.Len : Int) then dbuf.sliceTo (h.Len : Int)
             else dbuf.sliceTo ((h.Len : Int) - (NLMSG_HDRLEN : Int))).bind fun data =>
              (b.sliceFrom dlen).bind fun rest =>
                parseLoop fuel rest (msgs ++ [{ Header := h, Data := data }])
    else .ret (msgs, none)

/-- The function `parseAuditNetlinkMessage`.  Every iteration that goes on removes at
least sixteen bytes, so the length of the buffer bounds the number of iterations. -/
def parseAuditNetlinkMessage (b : ByteSlice) : Run (List NetlinkMessage × Option GoError) :=
  parseLoop b.elems.length b []

/-- The function `newNetlinkAuditRequest`, with the package variable `sequenceNumber`
made explicit: the result is the new message and the new value of the counter.
`atomic.AddUint32` adds modulo `2 ^ 32` and returns the new value; the conversion
`uint32(syscall.NLMSG_HDRLEN + sizeofData)` keeps the low 32 bits. -/
def newNetlinkAuditRequest (sequenceNumber : Nat) (proto : Nat) (sizeofData : Int) :
    NetlinkMessage × Nat :=
  let seq := (sequenceNumber + 1) % 2 ^ 32
  ({ Header := { Len := (wrapInt ((NLMSG_HDRLEN : Int) + sizeofData) % 2 ^ 32).toNat,
                 Typ := proto,
                 Flags := Nat.lor NLM_F_REQUEST NLM_F_ACK,
                 Seq := seq,
                 Pid := 0 },
     Data := { elems := [], room := [] } }, seq)

/-! ## Transport -/

/-- What one call `syscall.Recvfrom(s.fd, rb, flags)` gave back: the count `nr`, the
error, and the contents of the buffer `rb` after the call. -/
structure RecvResult where
  /-- The number of bytes received. -/
  nr : Int
  /-- The receive buffer after the call, all `bytesize` bytes of it. -/
  rb : List Byte
  /-- The error of the call. -/
  err : Option GoError
  deriving DecidableEq

/-- What `syscall.Getsockname(s.fd)` gave back. -/
inductive Sockname where
  /-- The call failed. -/
  | failed (err : GoError) : Sockname
  /-- The address is a `*syscall.SockaddrNetlink` with this `Pid`. -/
  | netlink (pid : Nat) : Sockname
  /-- The address is of another type. -/
  | other : Sockname
  deriving DecidableEq

/-- The method `NetlinkConnection.Send`: the bytes handed to `syscall.Sendto` and the
returned error, given the error `sendto` of the system call. -/
def Send (sendto : Option GoError) (request : NetlinkMessage) :
    Run (List Byte × Option GoError) :=
  (ToWireFormat request).bind fun wire =>
    if sendto ≠ none then .ret (wire, errorsWrap sendto "could not send NetlinkMessage")
    else .ret (wire, none)

/-- The method `NetlinkConnection.Receive`, given what `Recvfrom` gave back.
`make([]byte, bytesize)` panics on a negative size. -/
def Receive (bytesize : Int) (r : RecvResult) : Run (List NetlinkMessage × Option GoError) :=
  if bytesize < 0 then .panic
  else if r.err ≠ none then .ret ([], errorsWrap r.err "recvfrom failed")
  else if r.nr < (NLMSG_HDRLEN : Int) then
    .ret ([], errorsWrap r.err "message length shorter than expected")
  else
    ((ByteSlice.ofList r.rb).sliceTo r.nr).bind fun rb => parseAuditNetlinkMessage rb

/-! ## Reply correlation -/

/-- The signed code at the head of an error payload:
`int32(nativeEndian().Uint32(m.Data[0:4]))`. -/
def errorCode (m : NetlinkMessage) : Run Int :=
  (m.Data.sliceTo 4).bind fun d =>
    .ret (toInt32 (leUint32 (d.elems.getD 0 0) (d.elems.getD 1 0) (d.elems.getD 2 0)
      (d.elems.getD 3 0)))

/-- How the `for _, m := range msgs` loop of `AuditGetReply` ends. -/
inductive ReplyExit where
  /-- The statement `break done`. -/
  | breakDone : ReplyExit
  /-- A `return` with this error. -/
  | returned (err : Option GoError) : ReplyExit
  /-- The range is exhausted: the outer loop receives again. -/
  | next : ReplyExit
  deriving DecidableEq

/-- The loop `for _, m := range msgs` of `AuditGetReply`. -/
def replyRange (k : AuditConsts) (sock : Sockname) (seq : Nat) :
    List NetlinkMessage → Run ReplyExit
  | [] => .ret .next
  | m :: ms =>
    match sock with
    | .failed err =>
      .ret (.returned (errorsWrap (some err) "AuditGetReply: Getsockname failed"))
    | .other =>
      .ret (.returned (errorsWrap (some (GoError.errno EINVAL))
        "AuditGetReply: socket type unexpected"))
    | .netlink pid =>
      if m.Header.Seq ≠ seq then .ret (.returned (some (GoError.wrongSeq m.Header.Seq seq)))
      else if m.Header.Pid ≠ pid then
        .ret (.returned (some (GoError.wrongPid m.Header.Pid pid)))
      else if m.Header.Typ = NLMSG_DONE then .ret .breakDone
      else if m.Header.Typ = NLMSG_ERROR then
        (errorCode m).bind fun e =>
          if e = 0 then .ret .breakDone
          else .ret (.returned (some (GoError.kernelReply e)))
      else if m.Header.Typ = k.AUDIT_GET then .ret .breakDone
      else replyRange k sock seq ms

/-- The function `AuditGetReply`.  The socket is given by what its system calls give
back: `sock` for every `Getsockname` and `recvs` for the successive `Recvfrom` calls.
When `recvs` is used up the next receive never returns. -/
def AuditGetReply (k : AuditConsts) (sock : Sockname) (bytesize : Int) (seq : Nat) :
    List RecvResult → Run (Option GoError)
  | [] => .blocked
  | r :: rs =>
    (Receive bytesize r).bind fun res =>
      if res.2 ≠ none then .ret (errorsWrap res.2 "AuditGetReply failed")
      else
        (replyRange k sock seq res.1).bind fun ex =>
          match ex with
          | .breakDone => .ret none
          | .returned err => .ret err
          | .next => AuditGetReply k sock bytesize seq rs

/-- The call `binary.Read(buf, nativeEndian(), &status)` on a reader holding `data`:
forty bytes are read in full (`io.EOF` when there is none, `io.ErrUnexpectedEOF` when
there are too few) and decoded field by field. -/
def binaryReadStatus (data : List Byte) : Except GoError AuditStatus :=
  if data.length = 0 then .error GoError.eof
  else if data.length < 40 then .error GoError.unexpectedEOF
  else
    let u32 := fun (i : Nat) =>
      leUint32 (data.getD i 0) (data.getD (i + 1) 0) (data.getD (i + 2) 0) (data.getD (i + 3) 0)
    .ok { Mask := u32 0, Enabled := u32 4, Failure := u32 8, Pid := u32 12,
          RateLimit := u32 16, BacklogLimit := u32 20, Lost := u32 24, Backlog := u32 28,
          Version := u32 32, BacklogWaitTime := u32 36 }

/-- How the `for _, m := range msgs` loop of `AuditIsEnabled` ends. -/
inductive StatusExit where
  /-- The statement `break done`. -/
  | breakDone : StatusExit
  /-- A `return` with this state and error. -/
  | returned (state : Int) (err : Option GoError) : StatusExit
  /-- The range is exhausted: the outer loop receives again. -/
  | next : StatusExit
  deriving DecidableEq

/-- The loop `for _, m := range msgs` of `AuditIsEnabled`; `seq` is `wb.Header.Seq`. -/
def statusRange (k : AuditConsts) (sock : Sockname) (seq : Nat) :
    List NetlinkMessage → Run StatusExit
  | [] => .ret .next
  | m :: ms =>
    match sock with
    | .failed err =>
      .ret (.returned (-1) (errorsWrap (some err) "AuditIsEnabled: Getsockname failed"))
    | .other =>
      .ret (.returned (-1) (errorsWrap (some (GoError.errno EINVAL))
        "AuditIsEnabled: socket type unexpected"))
    | .netlink pid =>
      if m.Header.Seq ≠ seq then
        .ret (.returned (-1) (some (GoError.wrongSeq m.Header.Seq seq)))
      else if m.Header.Pid ≠ pid then
        .ret (.returned (-1) (some (GoError.wrongPid m.Header.Pid pid)))
      else if m.Header.Typ = NLMSG_DONE then .ret .breakDone
      else if m.Header.Typ = NLMSG_ERROR then
        (errorCode m).bind fun e =>
          if e = 0 then statusRange k sock seq ms
          else .ret .breakDone
      else if m.Header.Typ = k.AUDIT_GET then
        match binaryReadStatus m.Data.elems with
        | .error err =>
          .ret (.returned (-1)
            (errorsWrap (some err) "AuditIsEnabled: binary read into AuditStatus failed"))
        | .ok status => .ret (.returned (status.Enabled : Int) none)
      else statusRange k sock seq ms

/-- The receive loop of `AuditIsEnabled`, labelled `done` in the source. -/
def statusLoop (k : AuditConsts) (sock : Sockname) (seq : Nat) :
    List RecvResult → Run (Int × Option GoError)
  | [] => .blocked
  | r :: rs =>
    (Receive k.MAX_AUDIT_MESSAGE_LENGTH r).bind fun res =>
      if res.2 ≠ none then .ret (-1, errorsWrap res.2 "AuditIsEnabled failed")
      else
        (statusRange k sock seq res.1).bind fun ex =>
          match ex with
          | .breakDone => .ret (-1, none)
          | .returned state err => .ret (state, err)
          | .next => statusLoop k sock seq rs

/-- The function `AuditIsEnabled`.  `sequenceNumber` is the package counter before the
call, `sendto` the error of the `Sendto` call; `sock` and `recvs` are as in
`AuditGetReply`.  The result is the returned pair `(state, err)`. -/
def AuditIsEnabled (k : AuditConsts) (sequenceNumber : Nat) (sendto : Option GoError)
    (sock : Sockname) (recvs : List RecvResult) : Run (Int × Option GoError) :=
  let wb := (newNetlinkAuditRequest sequenceNumber k.AUDIT_GET 0).1
  (Send sendto wb).bind fun sent =>
    if sent.2 ≠ none then .ret (-1, errorsWrap sent.2 "AuditIsEnabled failed")
    else statusLoop k sock wb.Header.Seq recvs

/-! ## Status operations -/

/-- The conversion `uint32(x)` of an `int`: the low 32 bits. -/
def toUint32 (x : Int) : Nat :=
  (x % 2 ^ 32).toNat

/-- The zero value of `AuditStatus`, as `var status AuditStatus` declares it. -/
def zeroStatus : AuditStatus :=
  { Mask := 0, Enabled := 0, Failure := 0, Pid := 0, RateLimit := 0, BacklogLimit := 0,
    Lost := 0, Backlog := 0, Version := 0, BacklogWaitTime := 0 }

/-- The bytes that `binary.Write(buff, nativeEndian(), status)` puts into the buffer:
the ten fields in the order of the structure, four little-endian bytes each.  The write
into a `bytes.Buffer` does not fail. -/
def binaryWriteStatus (status : AuditStatus) : List Byte :=
  putUint32 status.Mask ++ putUint32 status.Enabled ++ putUint32 status.Failure
    ++ putUint32 status.Pid ++ putUint32 status.RateLimit ++ putUint32 status.BacklogLimit
    ++ putUint32 status.Lost ++ putUint32 status.Backlog ++ putUint32 status.Version
    ++ putUint32 status.BacklogWaitTime

/-- What a call leaves behind and how it ends: the package counter `sequenceNumber`
after the call, the datagrams handed to `syscall.Sendto` in order, and the result. -/
structure Effect (α : Type) where
  /-- The package variable `sequenceNumber` after the call. -/
  sequenceNumber : Nat
  /-- The byte slices handed to `syscall.Sendto`. -/
  sent : List (List Byte)
  /-- How the call ends. -/
  result : Run α

/-- The request that the four setters build from their `status`:
`wb := newNetlinkAuditRequest(uint16(AUDIT_SET), syscall.AF_NETLINK,
int(unsafe.Sizeof(status)))`, the size of the structure being forty bytes, followed by
`wb.Data = append(wb.Data[:], buff.Bytes()[:]...)`.  The result is the message and the
new value of the counter.  The spare capacity of the appended slice is left empty:
nothing reads it. -/
def statusRequest (k : AuditConsts) (sequenceNumber : Nat) (status : AuditStatus) :
    NetlinkMessage × Nat :=
  let buff := binaryWriteStatus status
  let r := newNetlinkAuditRequest sequenceNumber k.AUDIT_SET 40
  ({ Header := r.1.Header, Data := { elems := r.1.Data.elems ++ buff, room := [] } }, r.2)

/-- The part that the four setters share after they have filled `status`: build the
request, `Send` it, and wait with `AuditGetReply(s, syscall.Getpagesize(), 0,
wb.Header.Seq)`.  `sendMsg` is the message that wraps an error of `Send`; `replyMsg` is
the message that wraps an error of `AuditGetReply`, or `none` where the setter returns
that error as it is. -/
def setStatus (k : AuditConsts) (sequenceNumber : Nat) (sendto : Option GoError)
    (sock : Sockname) (pagesize : Int) (recvs : List RecvResult) (status : AuditStatus)
    (sendMsg : String) (replyMsg : Option String) : Effect (Option GoError) :=
  let wb := (statusRequest k sequenceNumber status).1
  let seq := (statusRequest k sequenceNumber status).2
  match Send sendto wb with
  | .ret (wire, err) =>
    { sequenceNumber := seq, sent := [wire],
      result :=
        if err ≠ none then .ret (errorsWrap err sendMsg)
        else
          (AuditGetReply k sock pagesize wb.Header.Seq recvs).bind fun err =>
            if err ≠ none then
              match replyMsg with
              | some msg => .ret (errorsWrap err msg)
              | none => .ret err
            else .ret none }
  | .panic => { sequenceNumber := seq, sent := [], result := .panic }
  | .blocked => { sequenceNumber := seq, sent := [], result := .blocked }
  | .outOfFuel => { sequenceNumber := seq, sent := [], result := .outOfFuel }

/-- The function `AuditSetEnabled`. -/
def AuditSetEnabled (k : AuditConsts) (sequenceNumber : Nat) (sendto : Option GoError)
    (sock : Sockname) (pagesize : Int) (recvs : List RecvResult) (enabled : Int) :
    Effect (Option GoError) :=
  let status : AuditStatus :=
    { zeroStatus with Enabled := toUint32 enabled, Mask := k.AUDIT_STATUS_ENABLED }
  setStatus k sequenceNumber sendto sock pagesize recvs status
    "AuditSetEnabled failed" (some "AuditSetEnabled failed")

/-- The function `AuditSetPID`. -/
def AuditSetPID (k : AuditConsts) (sequenceNumber : Nat) (sendto : Option GoError)
    (sock : Sockname) (pagesize : Int) (recvs : List RecvResult) (pid : Int) :
    Effect (Option GoError) :=
  let status : AuditStatus :=
    { zeroStatus with Mask := k.AUDIT_STATUS_PID, Pid := toUint32 pid }
  setStatus k sequenceNumber sendto sock pagesize recvs status
    "AuditSetPID failed" (some "AuditSetPID failed")

/-- The function `AuditSetRateLimit`; it returns the error of `AuditGetReply` as it
is. -/
def AuditSetRateLimit (k : AuditConsts) (sequenceNumber : Nat) (sendto : Option GoError)
    (sock : Sockname) (pagesize : Int) (recvs : List RecvResult) (limit : Int) :
    Effect (Option GoError) :=
  let status : AuditStatus :=
    { zeroStatus with Mask := k.AUDIT_STATUS_RATE_LIMIT, RateLimit := toUint32 limit }
  setStatus k sequenceNumber sendto sock pagesize recvs status
    "AuditSetRateLimit failed" none

/-- The function `AuditSetBacklogLimit`. -/
def AuditSetBacklogLimit (k : AuditConsts) (sequenceNumber : Nat) (sendto : Option GoError)
    (sock : Sockname) (pagesize : Int) (recvs : List RecvResult) (limit : Int) :
    Effect (Option GoError) :=
  let status : AuditStatus :=
    { zeroStatus with Mask := k.AUDIT_STATUS_BACKLOG_LIMIT, BacklogLimit := toUint32 limit }
  setStatus k sequenceNumber sendto sock pagesize recvs status
    "AuditSetBacklogLimit failed" (some "AuditSetBacklogLimit failed")

/-- The package variable `sequenceNumber` when the process starts: a `uint32` without
initialiser. -/
def sequenceNumberInit : Nat := 0

/-- Successive calls of `newNetlinkAuditRequest`, one for each `(proto, sizeofData)` of
`calls`, from the counter `sequenceNumber`: the messages created, in order, and the
counter after the last call. -/
def requestsFrom (sequenceNumber : Nat) : List (Nat × Int) → List NetlinkMessage × Nat
  | [] => ([], sequenceNumber)
  | c :: calls =>
    let r := newNetlinkAuditRequest sequenceNumber c.1 c.2
    let rest := requestsFrom r.2 calls
    (r.1 :: rest.1, rest.2)

/-- The bytes that a list of decoded messages stands for: sixteen header bytes and the
payload, for each message. -/
def wireTotal (msgs : List NetlinkMessage) : Nat :=
  (msgs.map fun m => 16 + m.Data.elems.length).sum

/-! ## Closed forms and test data -/

/-- Closed form of the payload slice that one iteration of the decode loop builds at `b`
when the header passes the length check: the bytes behind the header, cut at the
declared length when that equals their number and at the declared length less
sixteen otherwise. -/
def stepData (b : ByteSlice) : ByteSlice :=
  let n :=
    if b.elems.length - 16 = (headerAt (b.elems ++ b.room)).Len
    then (headerAt (b.elems ++ b.room)).Len
    else (headerAt (b.elems ++ b.room)).Len - 16
  { elems := (b.elems.drop 16).take n, room := (b.elems.drop 16).drop n ++ b.room }

/-- The cursor of the decode loop after `k` iterations that went on: the slice `b` of
`parseAuditNetlinkMessage` after `k` passes through `b = b[dlen:]`, when there are as
many. -/
def cursorAfter : Nat → ByteSlice → Option ByteSlice
  | 0, b => some b
  | k + 1, b =>
    if b.len ≥ (NLMSG_HDRLEN : Int) then
      match netlinkMessageHeaderAndData b with
      | .ret (.ok (_, _, dlen)) =>
        match b.sliceFrom dlen with
        | .ret rest => cursorAfter k rest
        | _ => none
      | _ => none
    else none

/-- The message of `TestWireFormat`: type 16, flags request|ack, sequence 2, pid 0 and
the payload 12 as four little-endian bytes. -/
def testMsg : NetlinkMessage :=
  { Header := { Len := 20, Typ := AF_NETLINK, Flags := Nat.lor NLM_F_REQUEST NLM_F_ACK,
                Seq := 2, Pid := 0 },
    Data := ByteSlice.ofList [12, 0, 0, 0] }

/-- A message with a payload of one byte. -/
def oddMsg : NetlinkMessage :=
  { Header := { Len := 17, Typ := AF_NETLINK, Flags := Nat.lor NLM_F_REQUEST NLM_F_ACK,
                Seq := 2, Pid := 0 },
    Data := ByteSlice.ofList [12] }

/-- A message without payload. -/
def emptyMsg (seq : Nat) : NetlinkMessage :=
  { Header := { Len := 16, Typ := NLMSG_DONE, Flags := 0, Seq := seq, Pid := 0 },
    Data := ByteSlice.ofList [] }

/-- Zero bytes from a length up to the next multiple of four. -/
def padding (len : Nat) : List Byte :=
  List.replicate ((4 - len % 4) % 4) 0

/-- Two encodings in one receive buffer, each followed by zero bytes up to the next
multiple of four. -/
def twoMessageBuffer (w1 w2 : List Byte) : List Byte :=
  w1 ++ padding w1.length ++ (w2 ++ padding w2.length)

/-- The bytes of a frame with the given type, sequence, pid and payload, and a length
field of 16 plus the payload length. -/
def frameBytes (typ seq pid : Nat) (payload : List Byte) : List Byte :=
  headerBytes { Len := 16 + payload.length, Typ := typ, Flags := 0, Seq := seq, Pid := pid }
    ++ payload

/-- A receive of the datagram `bs` into a zeroed buffer of `bytesize` bytes, without
error: the datagram is cut at the size of the buffer. -/
def recvInto (bytesize : Nat) (bs : List Byte) : RecvResult :=
  { nr := ((min bs.length bytesize : Nat) : Int),
    rb := bs.take bytesize ++ List.replicate (bytesize - bs.length) 0,
    err := none }

/-- An acknowledgement for the request `seq` on the socket bound to `pid`: an
error-typed frame whose code reads as zero. -/
def IsAck (seq pid : Nat) (m : NetlinkMessage) : Prop :=
  m.Header.Seq = seq ∧ m.Header.Pid = pid ∧ m.Header.Typ = NLMSG_ERROR ∧ errorCode m = .ret 0

instance (seq pid : Nat) (m : NetlinkMessage) : Decidable (IsAck seq pid m) := by
  unfold IsAck
  infer_instance

/-- A status payload of forty bytes: mask 1, enabled 1 and eight fields of zero. -/
def statusPayload : List Byte :=
  [1, 0, 0, 0, 1, 0, 0, 0, 0, 0, 0, 0, 0, 0, 0, 0, 0, 0, 0, 0,
   0, 0, 0, 0, 0, 0, 0, 0, 0, 0, 0, 0, 0, 0, 0, 0, 0, 0, 0, 0]

/-- A message whose header length field is 20 and whose payload is empty. -/
def lengthMismatchMsg : NetlinkMessage :=
  { Header := { Len := 20, Typ := AF_NETLINK, Flags := Nat.lor NLM_F_REQUEST NLM_F_ACK,
                Seq := 2, Pid := 0 },
    Data := ByteSlice.ofList [] }

/-! ## Basic facts -/

@[simp] theorem Run.bind_ret {α β : Type} (a : α) (f : α → Run β) : (Run.ret a).bind f = f a := rfl

@[simp] theorem Run.bind_panic {α β : Type} (f : α → Run β) : (Run.panic : Run α).bind f = Run.panic := rfl

theorem headerBytes_length (h : NlMsghdr) : (headerBytes h).length = 16 := by
  simp [headerBytes, putUint32, putUint16]

theorem ToWireFormat_of_le (rr : NetlinkMessage) (h : 16 ≤ rr.Header.Len) :
    ToWireFormat rr = .ret (headerBytes rr.Header ++ rr.Data.elems) := by
  obtain ⟨n, hn⟩ : ∃ n, rr.Header.Len = n + 16 := ⟨rr.Header.Len - 16, by omega⟩
  unfold ToWireFormat headerBytes
  generalize hv : putUint32 rr.Header.Len = a
  rw [hn]
  subst hv
  simp [List.replicate_succ, storeAt, putUint32, putUint16]

theorem ToWireFormat_of_lt (rr : NetlinkMessage) (h : rr.Header.Len < 16) :
    ToWireFormat rr = .panic := by
  unfold ToWireFormat
  generalize hv : putUint32 rr.Header.Len = a
  have ha : a.length = 4 := by subst hv; rfl
  generalize rr.Header.Len = n at h
  obtain ⟨a0, a1, a2, a3, rfl⟩ : ∃ a0 a1 a2 a3, a = [a0, a1, a2, a3] := by
    match a, ha with
    | [a0, a1, a2, a3], _ => exact ⟨a0, a1, a2, a3, rfl⟩
  interval_cases n <;> simp [List.replicate_succ, storeAt, putUint32, putUint16, Run.bind]

theorem land_mask_four (n : Nat) (h : n < 2 ^ 64) : Nat.land n (2 ^ 64 - 4) = n - n % 4 := by
  have e1 : n - n % 4 = 2 ^ 2 * (n / 2 ^ 2) := by omega
  have e2 : 2 ^ 64 - 4 = 2 ^ 2 * (2 ^ 62 - 1) := by norm_num
  show n &&& (2 ^ 64 - 4) = n - n % 4
  apply Nat.eq_of_testBit_eq
  intro i
  rw [Nat.testBit_and, e1, e2, Nat.testBit_mul_pow_two, Nat.testBit_mul_pow_two,
    Nat.testBit_two_pow_sub_one, ← Nat.shiftRight_eq_div_pow, Nat.testBit_shiftRight]
  by_cases h2 : 2 ≤ i
  · have e3 : 2 + (i - 2) = i := by omega
    rw [e3]
    by_cases h64 : i < 64
    · have : i - 2 < 62 := by omega
      simp [h2, this]
    · have hlt : n < 2 ^ i := lt_of_lt_of_le h (Nat.pow_le_pow_right (by decide) (by omega))
      simp [Nat.testBit_lt_two_pow hlt]
  · simp [h2]

theorem nlmAlignOf_natCast (n : Nat) (h : n < 2 ^ 62) :
    nlmAlignOf (n : Int) = (((n + 3) / 4 * 4 : Nat) : Int) := by
  have hb1 : wrapInt (wrapInt ((n : Int) + (NLMSG_ALIGNTO : Int)) - 1) = ((n + 3 : Nat) : Int) := by
    simp only [wrapInt, NLMSG_ALIGNTO]
    push_cast
    omega
  have hb2 : intBits (((n + 3 : Nat) : Int)) = n + 3 := by
    simp only [intBits]
    omega
  have hb3 : intBits (intNot ((NLMSG_ALIGNTO : Int) - 1)) = 2 ^ 64 - 4 := by decide
  unfold nlmAlignOf intAnd
  rw [hb1, hb2, hb3, land_mask_four (n + 3) (by omega)]
  simp only [ofBits]
  split <;> omega

theorem leUint32_lt (b0 b1 b2 b3 : Byte) : leUint32 b0 b1 b2 b3 < 2 ^ 32 := by
  unfold leUint32
  omega

theorem leUint32_putUint32 (v : Nat) (h : v < 2 ^ 32) :
    leUint32 (byteOf v) (byteOf (v / 256)) (byteOf (v / 65536)) (byteOf (v / 16777216)) = v := by
  simp only [leUint32, byteOf]
  omega

theorem leUint16_putUint16 (v : Nat) (h : v < 2 ^ 16) :
    leUint16 (byteOf v) (byteOf (v / 256)) = v := by
  simp only [leUint16, byteOf]
  omega

theorem headerAt_headerBytes (h : NlMsghdr) (hr : h.InRange) (tail : List Byte) :
    headerAt (headerBytes h ++ tail) = h := by
  obtain ⟨h1, h2, h3, h4, h5⟩ := hr
  cases h
  simp only [headerAt, headerBytes, putUint32, putUint16, List.cons_append, List.nil_append,
    List.getD_cons_zero, List.getD_cons_succ, List.append_assoc]
  simp only [leUint32_putUint32 _ h1, leUint32_putUint32 _ h4, leUint32_putUint32 _ h5,
    leUint16_putUint16 _ h2, leUint16_putUint16 _ h3]

theorem headerAt_Len_lt (bs : List Byte) : (headerAt bs).Len < 2 ^ 32 :=
  leUint32_lt _ _ _ _

/-! ## One iteration of the decode loop -/

theorem netlinkMessageHeaderAndData_bad (b : ByteSlice) (hne : b.elems ≠ [])
    (hbad : (headerAt (b.elems ++ b.room)).Len < 16
      ∨ b.elems.length < (headerAt (b.elems ++ b.room)).Len) :
    netlinkMessageHeaderAndData b
      = .ret (.error (GoError.headerLength (headerAt (b.elems ++ b.room)).Len b.len)) := by
  unfold netlinkMessageHeaderAndData
  rw [if_neg hne]
  have : ((headerAt (b.elems ++ b.room)).Len : Int) < (NLMSG_HDRLEN : Int)
      ∨ ((headerAt (b.elems ++ b.room)).Len : Int) > b.len := by
    simp only [NLMSG_HDRLEN, ByteSlice.len]
    omega
  simp only [this, if_true]

theorem netlinkMessageHeaderAndData_good (b : ByteSlice)
    (hlo : 16 ≤ (headerAt (b.elems ++ b.room)).Len)
    (hhi : (headerAt (b.elems ++ b.room)).Len ≤ b.elems.length) :
    netlinkMessageHeaderAndData b
      = .ret (.ok (headerAt (b.elems ++ b.room), { elems := b.elems.drop 16, room := b.room },
          ((((headerAt (b.elems ++ b.room)).Len + 3) / 4 * 4 : Nat) : Int))) := by
  have hne : b.elems ≠ [] := by
    intro h
    have : b.elems.length = 0 := by rw [h]; rfl
    omega
  have hl := headerAt_Len_lt (b.elems ++ b.room)
  unfold netlinkMessageHeaderAndData
  rw [if_neg hne]
  have : ¬ (((headerAt (b.elems ++ b.room)).Len : Int) < (NLMSG_HDRLEN : Int)
      ∨ ((headerAt (b.elems ++ b.room)).Len : Int) > b.len) := by
    simp only [NLMSG_HDRLEN, ByteSlice.len]
    omega
  simp only [this, if_false]
  have h16 : (0 : Int) ≤ (NLMSG_HDRLEN : Int) ∧ (NLMSG_HDRLEN : Int) ≤ b.len := by
    simp only [NLMSG_HDRLEN, ByteSlice.len]
    omega
  simp only [ByteSlice.sliceFrom, h16, and_self, if_true, Run.bind_ret]
  rw [nlmAlignOf_natCast _ (by omega)]
  simp [NLMSG_HDRLEN]

theorem sliceTo_natCast (s : ByteSlice) (n : Nat) (h : n ≤ s.elems.length + s.room.length) :
    s.sliceTo (n : Int)
      = .ret { elems := (s.elems ++ s.room).take n, room := (s.elems ++ s.room).drop n } := by
  have : (0 : Int) ≤ (n : Int) ∧ (n : Int) ≤ s.cap := by
    simp only [ByteSlice.cap]
    omega
  simp [ByteSlice.sliceTo, this]

theorem sliceFrom_natCast (s : ByteSlice) (n : Nat) :
    s.sliceFrom (n : Int)
      = if n ≤ s.elems.length then .ret { elems := s.elems.drop n, room := s.room }
        else .panic := by
  by_cases h : n ≤ s.elems.length
  · have : (0 : Int) ≤ (n : Int) ∧ (n : Int) ≤ s.len := by
      simp only [ByteSlice.len]
      omega
    simp [ByteSlice.sliceFrom, this, h]
  · have : ¬ ((0 : Int) ≤ (n : Int) ∧ (n : Int) ≤ s.len) := by
      simp only [ByteSlice.len]
      omega
    rw [ByteSlice.sliceFrom, if_neg this, if_neg h]

theorem parseLoop_short (fuel : Nat) (b : ByteSlice) (msgs : List NetlinkMessage)
    (h : b.elems.length < 16) : parseLoop fuel b msgs = .ret (msgs, none) := by
  have : ¬ (b.len ≥ (NLMSG_HDRLEN : Int)) := by
    simp only [ByteSlice.len, NLMSG_HDRLEN]
    omega
  unfold parseLoop
  simp only [this, if_false]

theorem parseLoop_bad (fuel : Nat) (b : ByteSlice) (msgs : List NetlinkMessage)
    (h16 : 16 ≤ b.elems.length)
    (hbad : (headerAt (b.elems ++ b.room)).Len < 16
      ∨ b.elems.length < (headerAt (b.elems ++ b.room)).Len) :
    parseLoop (fuel + 1) b msgs
      = .ret ([], some (GoError.wrap "error while parsing NetlinkMessage"
          (GoError.headerLength (headerAt (b.elems ++ b.room)).Len b.len))) := by
  have hg : b.len ≥ (NLMSG_HDRLEN : Int) := by
    simp only [ByteSlice.len, NLMSG_HDRLEN]
    omega
  have hne : b.elems ≠ [] := by
    intro h
    rw [h] at h16
    simp at h16
  rw [parseLoop]
  simp only [hg, if_true, netlinkMessageHeaderAndData_bad b hne hbad, Run.bind_ret, errorsWrap]

theorem parseLoop_good (fuel : Nat) (b : ByteSlice) (msgs : List NetlinkMessage)
    (hlo : 16 ≤ (headerAt (b.elems ++ b.room)).Len)
    (hhi : (headerAt (b.elems ++ b.room)).Len ≤ b.elems.length) :
    parseLoop (fuel + 1) b msgs
      = if ((headerAt (b.elems ++ b.room)).Len + 3) / 4 * 4 ≤ b.elems.length then
          parseLoop fuel
            { elems := b.elems.drop (((headerAt (b.elems ++ b.room)).Len + 3) / 4 * 4),
              room := b.room }
            (msgs ++ [{ Header := headerAt (b.elems ++ b.room),
                        Data := stepData b }])
        else .panic := by
  have hg : b.len ≥ (NLMSG_HDRLEN : Int) := by
    simp only [ByteSlice.len, NLMSG_HDRLEN]
    omega
  rw [parseLoop]
  simp only [hg, if_true, netlinkMessageHeaderAndData_good b hlo hhi, Run.bind_ret]
  have hdata : (if ({ elems := b.elems.drop 16, room := b.room } : ByteSlice).len
        = ((headerAt (b.elems ++ b.room)).Len : Int)
      then ({ elems := b.elems.drop 16, room := b.room } : ByteSlice).sliceTo
        ((headerAt (b.elems ++ b.room)).Len : Int)
      else ({ elems := b.elems.drop 16, room := b.room } : ByteSlice).sliceTo
        (((headerAt (b.elems ++ b.room)).Len : Int) - (NLMSG_HDRLEN : Int)))
      = .ret (stepData b) := by
    unfold stepData
    generalize (headerAt (b.elems ++ b.room)).Len = n at hlo hhi ⊢
    by_cases hd : b.elems.length - 16 = n
    · have c : ({ elems := b.elems.drop 16, room := b.room } : ByteSlice).len = (n : Int) := by
        simp only [ByteSlice.len, List.length_drop]
        omega
      rw [if_pos c, sliceTo_natCast _ _ (by simp only [List.length_drop]; omega)]
      simp only [if_pos hd]
      rw [List.take_append_of_le_length (by simp only [List.length_drop]; omega),
        List.drop_append_of_le_length (by simp only [List.length_drop]; omega)]
    · have c : ¬ ({ elems := b.elems.drop 16, room := b.room } : ByteSlice).len = (n : Int) := by
        simp only [ByteSlice.len, List.length_drop]
        omega
      have e : (n : Int) - (NLMSG_HDRLEN : Int) = ((n - 16 : Nat) : Int) := by
        simp only [NLMSG_HDRLEN]
        omega
      rw [if_neg c, e, sliceTo_natCast _ _ (by simp only [List.length_drop]; omega)]
      simp only [if_neg hd]
      rw [List.take_append_of_le_length (by simp only [List.length_drop]; omega),
        List.drop_append_of_le_length (by simp only [List.length_drop]; omega)]
  rw [hdata, Run.bind_ret, sliceFrom_natCast]
  split
  · rw [Run.bind_ret]
  · rfl

/-! ## Encoding -/

/-- C2. Wire layout: a message whose header length field is 16 plus its payload length
encodes to the sixteen header bytes (length in 4 little-endian bytes, type in 2, flags
in 2, sequence in 4, pid in 4) followed by the payload unchanged and nothing more:
`16 + len(payload)` bytes, whose first sixteen read back as the header. -/
theorem ToWireFormat_layout (m : NetlinkMessage) (hr : m.Header.InRange)
    (hl : m.Header.Len = 16 + m.Data.elems.length) :
    ToWireFormat m
        = .ret (putUint32 m.Header.Len ++ putUint16 m.Header.Typ ++ putUint16 m.Header.Flags
            ++ putUint32 m.Header.Seq ++ putUint32 m.Header.Pid ++ m.Data.elems)
      ∧ (putUint32 m.Header.Len ++ putUint16 m.Header.Typ ++ putUint16 m.Header.Flags
            ++ putUint32 m.Header.Seq ++ putUint32 m.Header.Pid ++ m.Data.elems).length
          = 16 + m.Data.elems.length
      ∧ headerAt (putUint32 m.Header.Len ++ putUint16 m.Header.Typ ++ putUint16 m.Header.Flags
            ++ putUint32 m.Header.Seq ++ putUint32 m.Header.Pid ++ m.Data.elems) = m.Header
      ∧ (putUint32 m.Header.Len ++ putUint16 m.Header.Typ ++ putUint16 m.Header.Flags
            ++ putUint32 m.Header.Seq ++ putUint32 m.Header.Pid ++ m.Data.elems).drop 16
          = m.Data.elems := by
  have hw := ToWireFormat_of_le m (by omega)
  have hh := headerAt_headerBytes m.Header hr m.Data.elems
  have hn := headerBytes_length m.Header
  unfold headerBytes at hw hh hn
  refine ⟨hw, ?_, hh, ?_⟩
  · rw [List.length_append, hn]
  · rw [List.drop_append_of_le_length (by omega), ← hn, List.drop_length, List.nil_append]

/-- C2, at the message of `TestWireFormat`: the encoding is the twenty bytes that the
test expects. -/
theorem ToWireFormat_layout_witness :
    ToWireFormat testMsg
      = .ret [20, 0, 0, 0, 16, 0, 5, 0, 2, 0, 0, 0, 0, 0, 0, 0, 12, 0, 0, 0] :=
  (ToWireFormat_layout testMsg (by decide) (by decide)).1

/-! ## Malformed headers -/

theorem cursorAfter_succ (k : Nat) (b p : ByteSlice) (h : cursorAfter (k + 1) b = some p) :
    16 ≤ (headerAt (b.elems ++ b.room)).Len
      ∧ (headerAt (b.elems ++ b.room)).Len ≤ b.elems.length
      ∧ ((headerAt (b.elems ++ b.room)).Len + 3) / 4 * 4 ≤ b.elems.length
      ∧ cursorAfter k
          { elems := b.elems.drop (((headerAt (b.elems ++ b.room)).Len + 3) / 4 * 4),
            room := b.room } = some p := by
  rw [cursorAfter] at h
  by_cases hg : b.len ≥ (NLMSG_HDRLEN : Int)
  · rw [if_pos hg] at h
    have h16 : 16 ≤ b.elems.length := by
      simp only [ByteSlice.len, NLMSG_HDRLEN] at hg
      omega
    have hne : b.elems ≠ [] := by
      intro e
      have : b.elems.length = 0 := by rw [e]; rfl
      omega
    by_cases hbad : (headerAt (b.elems ++ b.room)).Len < 16
        ∨ b.elems.length < (headerAt (b.elems ++ b.room)).Len
    · rw [netlinkMessageHeaderAndData_bad b hne hbad] at h
      simp at h
    · have hlo : 16 ≤ (headerAt (b.elems ++ b.room)).Len := by omega
      have hhi : (headerAt (b.elems ++ b.room)).Len ≤ b.elems.length := by omega
      rw [netlinkMessageHeaderAndData_good b hlo hhi] at h
      simp only [sliceFrom_natCast] at h
      by_cases ha : ((headerAt (b.elems ++ b.room)).Len + 3) / 4 * 4 ≤ b.elems.length
      · rw [if_pos ha] at h
        exact ⟨hlo, hhi, ha, h⟩
      · rw [if_neg ha] at h
        simp at h
  · rw [if_neg hg] at h
    simp at h

theorem parseLoop_bad_after (k : Nat) :
    ∀ (fuel : Nat) (b p : ByteSlice) (msgs : List NetlinkMessage),
      b.elems.length ≤ fuel → cursorAfter k b = some p → 16 ≤ p.elems.length →
      ((headerAt (p.elems ++ p.room)).Len < 16
        ∨ p.elems.length < (headerAt (p.elems ++ p.room)).Len) →
      parseLoop fuel b msgs
        = .ret ([], some (GoError.wrap "error while parsing NetlinkMessage"
            (GoError.headerLength (headerAt (p.elems ++ p.room)).Len p.len))) := by
  induction k with
  | zero =>
    intro fuel b p msgs hf hc h16 hbad
    simp only [cursorAfter, Option.some.injEq] at hc
    subst hc
    obtain ⟨f, rfl⟩ : ∃ f, fuel = f + 1 := ⟨fuel - 1, by omega⟩
    exact parseLoop_bad f b msgs h16 hbad
  | succ k ih =>
    intro fuel b p msgs hf hc h16 hbad
    obtain ⟨hlo, hhi, ha, hrest⟩ := cursorAfter_succ k b p hc
    obtain ⟨f, rfl⟩ : ∃ f, fuel = f + 1 := ⟨fuel - 1, by omega⟩
    rw [parseLoop_good f b msgs hlo hhi, if_pos ha]
    apply ih f _ p _ _ hrest h16 hbad
    simp only [List.length_drop]
    omega

/-- C3. When the decode walk over a buffer `b` reaches, after any number `k` of decoded
messages, a position `p` with at least 16 bytes left whose header declares a length
below 16 or above the number of bytes left, `parseAuditNetlinkMessage` returns the
header-length error for that position and an empty list of messages: the `k` messages
decoded before are not returned. -/
theorem parse_rejects_bad_header (b p : ByteSlice) (k : Nat)
    (hreach : cursorAfter k b = some p) (h16 : 16 ≤ p.elems.length)
    (hbad : (headerAt (p.elems ++ p.room)).Len < 16
      ∨ p.elems.length < (headerAt (p.elems ++ p.room)).Len) :
    parseAuditNetlinkMessage b
      = .ret ([], some (GoError.wrap "error while parsing NetlinkMessage"
          (GoError.headerLength (headerAt (p.elems ++ p.room)).Len p.len))) :=
  parseLoop_bad_after k b.elems.length b p [] (Nat.le_refl _) hreach h16 hbad

/-- C3, at a buffer of one message without payload followed by sixteen bytes whose
length field is 5. -/
theorem parse_rejects_bad_header_witness :
    parseAuditNetlinkMessage (ByteSlice.ofList
        [16, 0, 0, 0, 3, 0, 0, 0, 1, 0, 0, 0, 0, 0, 0, 0,
         5, 0, 0, 0, 3, 0, 0, 0, 2, 0, 0, 0, 0, 0, 0, 0])
      = .ret ([], some (GoError.wrap "error while parsing NetlinkMessage"
          (GoError.headerLength 5 16))) :=
  parse_rejects_bad_header
    (ByteSlice.ofList [16, 0, 0, 0, 3, 0, 0, 0, 1, 0, 0, 0, 0, 0, 0, 0,
         5, 0, 0, 0, 3, 0, 0, 0, 2, 0, 0, 0, 0, 0, 0, 0])
    (ByteSlice.ofList [5, 0, 0, 0, 3, 0, 0, 0, 2, 0, 0, 0, 0, 0, 0, 0]) 1
    (by decide) (by decide) (by decide)

/-! ## Two messages in one buffer -/

theorem padding_length (n : Nat) : (padding n).length = (4 - n % 4) % 4 := by
  simp [padding]

theorem stepData_encoded (m : NetlinkMessage) (hr : m.Header.InRange)
    (hl : m.Header.Len = 16 + m.Data.elems.length) (tail room : List Byte) :
    stepData { elems := headerBytes m.Header ++ (m.Data.elems ++ tail), room := room }
      = if tail.length = 16 then { elems := m.Data.elems ++ tail, room := room }
        else { elems := m.Data.elems, room := tail ++ room } := by
  have hh : headerAt ((headerBytes m.Header ++ (m.Data.elems ++ tail)) ++ room) = m.Header := by
    rw [List.append_assoc]
    exact headerAt_headerBytes m.Header hr _
  have hn := headerBytes_length m.Header
  have hd : (headerBytes m.Header ++ (m.Data.elems ++ tail)).drop 16 = m.Data.elems ++ tail :=
    List.drop_left' hn
  unfold stepData
  simp only [hh, hd, List.length_append, hn, hl]
  by_cases ht : tail.length = 16
  · have c : 16 + (m.Data.elems.length + tail.length) - 16 = 16 + m.Data.elems.length := by omega
    rw [if_pos c, if_pos ht, List.take_of_length_le (by simp only [List.length_append]; omega),
      List.drop_of_length_le (by simp only [List.length_append]; omega), List.nil_append]
  · have c : ¬ (16 + (m.Data.elems.length + tail.length) - 16 = 16 + m.Data.elems.length) := by
      omega
    have e : 16 + m.Data.elems.length - 16 = m.Data.elems.length := by omega
    rw [if_neg c, if_neg ht, e, List.take_left' rfl, List.drop_left' rfl]

theorem parseLoop_encoded (fuel : Nat) (m : NetlinkMessage) (hr : m.Header.InRange)
    (hl : m.Header.Len = 16 + m.Data.elems.length) (tail room : List Byte)
    (msgs : List NetlinkMessage) :
    parseLoop (fuel + 1)
        { elems := headerBytes m.Header
            ++ (m.Data.elems ++ (padding (16 + m.Data.elems.length) ++ tail)),
          room := room } msgs
      = parseLoop fuel { elems := tail, room := room }
          (msgs ++ [{ Header := m.Header,
                      Data := stepData
                        { elems := headerBytes m.Header
                            ++ (m.Data.elems ++ (padding (16 + m.Data.elems.length) ++ tail)),
                          room := room } }]) := by
  have hh : headerAt ((headerBytes m.Header
      ++ (m.Data.elems ++ (padding (16 + m.Data.elems.length) ++ tail))) ++ room) = m.Header := by
    rw [List.append_assoc]
    exact headerAt_headerBytes m.Header hr _
  have hn := headerBytes_length m.Header
  have hp := padding_length (16 + m.Data.elems.length)
  have hlen : (headerBytes m.Header
      ++ (m.Data.elems ++ (padding (16 + m.Data.elems.length) ++ tail))).length
      = 16 + m.Data.elems.length + (padding (16 + m.Data.elems.length)).length + tail.length := by
    simp only [List.length_append, hn]
    omega
  have ha : (m.Header.Len + 3) / 4 * 4
      = 16 + m.Data.elems.length + (padding (16 + m.Data.elems.length)).length := by
    rw [hl, hp]
    omega
  rw [parseLoop_good fuel _ msgs (by simp only [hh]; omega) (by simp only [hh, hlen]; omega)]
  simp only [hh, ha]
  rw [if_pos (by rw [hlen]; omega)]
  have hdrop : (headerBytes m.Header
      ++ (m.Data.elems ++ (padding (16 + m.Data.elems.length) ++ tail))).drop
        (16 + m.Data.elems.length + (padding (16 + m.Data.elems.length)).length) = tail := by
    rw [← List.append_assoc, ← List.append_assoc]
    apply List.drop_left'
    simp only [List.length_append, hn]
  rw [hdrop]

theorem twoMessageBuffer_encoded (m1 m2 : NetlinkMessage) :
    twoMessageBuffer (headerBytes m1.Header ++ m1.Data.elems)
        (headerBytes m2.Header ++ m2.Data.elems)
      = headerBytes m1.Header ++ (m1.Data.elems ++ (padding (16 + m1.Data.elems.length)
          ++ (headerBytes m2.Header ++ (m2.Data.elems
            ++ (padding (16 + m2.Data.elems.length) ++ []))))) := by
  simp only [twoMessageBuffer, List.length_append, headerBytes_length, List.append_assoc,
    List.append_nil]

/-- C4, amended. For two messages whose header length fields are 16 plus their payload
lengths, the buffer made of the first encoding, zero padding to a multiple of four, the
second encoding and zero padding to a multiple of four decodes to the two messages, in
order and with their payloads unchanged, unless the second payload is empty and the
length of the first payload is a multiple of four.  In that case as many bytes follow
the first header as it declares, the workaround branch of the decoder takes them all,
and the first decoded payload is the first payload followed by the sixteen header bytes
of the second message; the second decoded message is the second message. -/
theorem parse_two_messages (m1 m2 : NetlinkMessage) (room : List Byte)
    (hr1 : m1.Header.InRange) (hr2 : m2.Header.InRange)
    (hl1 : m1.Header.Len = 16 + m1.Data.elems.length)
    (hl2 : m2.Header.Len = 16 + m2.Data.elems.length) :
    ∃ w1 w2, ToWireFormat m1 = .ret w1 ∧ ToWireFormat m2 = .ret w2
      ∧ (¬ (m1.Data.elems.length % 4 = 0 ∧ m2.Data.elems.length = 0) →
          parseAuditNetlinkMessage { elems := twoMessageBuffer w1 w2, room := room }
            = .ret ([{ Header := m1.Header,
                       Data := { elems := m1.Data.elems,
                                 room := padding w1.length ++ (w2 ++ padding w2.length) ++ room } },
                     { Header := m2.Header,
                       Data := { elems := m2.Data.elems,
                                 room := padding w2.length ++ room } }], none))
      ∧ (m1.Data.elems.length % 4 = 0 ∧ m2.Data.elems.length = 0 →
          parseAuditNetlinkMessage { elems := twoMessageBuffer w1 w2, room := room }
            = .ret ([{ Header := m1.Header,
                       Data := { elems := m1.Data.elems ++ headerBytes m2.Header,
                                 room := room } },
                     { Header := m2.Header,
                       Data := { elems := [], room := room } }], none)) := by
  refine ⟨_, _, ToWireFormat_of_le m1 (by omega), ToWireFormat_of_le m2 (by omega), ?_, ?_⟩
  all_goals
    intro hc
    have hn1 := headerBytes_length m1.Header
    have hn2 := headerBytes_length m2.Header
    have hp1 := padding_length (16 + m1.Data.elems.length)
    have hp2 := padding_length (16 + m2.Data.elems.length)
    obtain ⟨f, hf⟩ : ∃ f, (twoMessageBuffer (headerBytes m1.Header ++ m1.Data.elems)
        (headerBytes m2.Header ++ m2.Data.elems)).length = f + 1 + 1 := by
      refine ⟨(twoMessageBuffer (headerBytes m1.Header ++ m1.Data.elems)
        (headerBytes m2.Header ++ m2.Data.elems)).length - 2, ?_⟩
      simp only [twoMessageBuffer, List.length_append, hn1, hn2]
      omega
    unfold parseAuditNetlinkMessage
    simp only [hf]
    rw [twoMessageBuffer_encoded, parseLoop_encoded _ m1 hr1 hl1, parseLoop_encoded _ m2 hr2 hl2,
      parseLoop_short _ _ _ (by simp), stepData_encoded m1 hr1 hl1, stepData_encoded m2 hr2 hl2]
  · have c1 : ¬ ((padding (16 + m1.Data.elems.length) ++ (headerBytes m2.Header
        ++ (m2.Data.elems ++ (padding (16 + m2.Data.elems.length) ++ [])))).length = 16) := by
      simp only [List.length_append, hn2, hp1, hp2, List.length_nil]
      omega
    have c2 : ¬ ((padding (16 + m2.Data.elems.length) ++ ([] : List Byte)).length = 16) := by
      simp only [List.length_append, hp2, List.length_nil]
      omega
    rw [if_neg c1, if_neg c2]
    simp only [List.length_append, hn1, hn2, List.append_assoc, List.append_nil, List.nil_append]
    rfl
  · have z1 : padding (16 + m1.Data.elems.length) = [] := by
      apply List.eq_nil_of_length_eq_zero
      rw [hp1]
      omega
    have z2 : padding (16 + m2.Data.elems.length) = [] := by
      apply List.eq_nil_of_length_eq_zero
      rw [hp2]
      omega
    have e2 : m2.Data.elems = [] := List.eq_nil_of_length_eq_zero hc.2
    rw [z1, z2, e2]
    simp only [List.append_nil, List.nil_append, hn2, List.length_nil, if_true, if_false,
      List.length_append, Nat.add_zero, OfNat.zero_ne_ofNat]
    rfl

/-- C4, at a four-byte payload followed by a message without payload: the decoded first
payload has twenty bytes, the four of the message and the header of the next one. -/
theorem parse_two_messages_counterexample :
    testMsg.Header.InRange ∧ (emptyMsg 3).Header.InRange
      ∧ testMsg.Header.Len = 16 + testMsg.Data.elems.length
      ∧ (emptyMsg 3).Header.Len = 16 + (emptyMsg 3).Data.elems.length
      ∧ ToWireFormat testMsg
          = .ret [20, 0, 0, 0, 16, 0, 5, 0, 2, 0, 0, 0, 0, 0, 0, 0, 12, 0, 0, 0]
      ∧ ToWireFormat (emptyMsg 3) = .ret [16, 0, 0, 0, 3, 0, 0, 0, 3, 0, 0, 0, 0, 0, 0, 0]
      ∧ parseAuditNetlinkMessage (ByteSlice.ofList (twoMessageBuffer
            [20, 0, 0, 0, 16, 0, 5, 0, 2, 0, 0, 0, 0, 0, 0, 0, 12, 0, 0, 0]
            [16, 0, 0, 0, 3, 0, 0, 0, 3, 0, 0, 0, 0, 0, 0, 0]))
          = .ret ([{ Header := testMsg.Header,
                     Data := ByteSlice.ofList
                       [12, 0, 0, 0, 16, 0, 0, 0, 3, 0, 0, 0, 3, 0, 0, 0, 0, 0, 0, 0] },
                   emptyMsg 3], none)
      ∧ testMsg.Data.elems = [12, 0, 0, 0] := by
  refine ⟨by decide, by decide, by decide, by decide, by decide, by decide, ?_, by decide⟩
  decide

/-- C4, amended, at the message of the test followed by a message with a payload of one
byte. -/
theorem parse_two_messages_witness :
    testMsg.Header.InRange ∧ oddMsg.Header.InRange
      ∧ ∃ w1 w2, ToWireFormat testMsg = .ret w1 ∧ ToWireFormat oddMsg = .ret w2
        ∧ parseAuditNetlinkMessage { elems := twoMessageBuffer w1 w2, room := [] }
            = .ret ([{ Header := testMsg.Header,
                       Data := { elems := testMsg.Data.elems,
                                 room := padding w1.length ++ (w2 ++ padding w2.length) ++ [] } },
                     { Header := oddMsg.Header,
                       Data := { elems := oddMsg.Data.elems,
                                 room := padding w2.length ++ [] } }], none) := by
  refine ⟨by decide, by decide, ?_⟩
  obtain ⟨w1, w2, h1, h2, h3, _⟩ :=
    parse_two_messages testMsg oddMsg [] (by decide) (by decide) (by decide) (by decide)
  exact ⟨w1, w2, h1, h2, h3 (by decide)⟩

/-! ## Reply correlation -/

theorem AuditGetReply_cons (k : AuditConsts) (sock : Sockname) (bytesize : Int) (seq : Nat)
    (r : RecvResult) (rs : List RecvResult) (msgs : List NetlinkMessage)
    (hrecv : Receive bytesize r = .ret (msgs, none)) :
    AuditGetReply k sock bytesize seq (r :: rs)
      = (replyRange k sock seq msgs).bind fun ex =>
          match ex with
          | .breakDone => .ret none
          | .returned err => .ret err
          | .next => AuditGetReply k sock bytesize seq rs := by
  rw [AuditGetReply, hrecv]
  simp only [Run.bind_ret, ne_eq, not_true_eq_false, if_false]

/-- C5. Validation precedes classification in `AuditGetReply`. When the first frame
received has a sequence number other than the expected one, the result is the
wrong-sequence error, whatever the type, pid and payload of the frame; when the
sequence matches and the pid is not the bound pid of the socket, the result is the
wrong-pid error. -/
theorem AuditGetReply_validates_first (k : AuditConsts) (pid seq : Nat) (bytesize : Int)
    (r : RecvResult) (rs : List RecvResult) (m : NetlinkMessage) (ms : List NetlinkMessage)
    (hrecv : Receive bytesize r = .ret (m :: ms, none)) :
    (m.Header.Seq ≠ seq →
        AuditGetReply k (.netlink pid) bytesize seq (r :: rs)
          = .ret (some (GoError.wrongSeq m.Header.Seq seq)))
      ∧ (m.Header.Seq = seq → m.Header.Pid ≠ pid →
        AuditGetReply k (.netlink pid) bytesize seq (r :: rs)
          = .ret (some (GoError.wrongPid m.Header.Pid pid))) := by
  rw [AuditGetReply_cons k _ bytesize seq r rs _ hrecv]
  constructor
  · intro hs
    simp only [replyRange, hs, ne_eq, not_false_eq_true, if_true, Run.bind_ret]
  · intro hs hp
    simp only [replyRange, hs, hp, ne_eq, not_true_eq_false, not_false_eq_true, if_true,
      if_false, Run.bind_ret]

/-- C5, at a `DONE` frame with sequence 6 where 5 is expected, and at a `DONE` frame
with the expected sequence and pid 78 on a socket bound to 77. -/
theorem AuditGetReply_validates_first_witness :
    AuditGetReply linuxConsts (.netlink 77) 32 5 [recvInto 32 (frameBytes NLMSG_DONE 6 77 [])]
        = .ret (some (GoError.wrongSeq 6 5))
      ∧ AuditGetReply linuxConsts (.netlink 77) 32 5 [recvInto 32 (frameBytes NLMSG_DONE 5 78 [])]
        = .ret (some (GoError.wrongPid 78 77)) :=
  ⟨(AuditGetReply_validates_first linuxConsts 77 5 32 (recvInto 32 (frameBytes NLMSG_DONE 6 77 []))
      [] { Header := { Len := 16, Typ := NLMSG_DONE, Flags := 0, Seq := 6, Pid := 77 },
           Data := { elems := [], room := List.replicate 16 0 } } [] (by decide)).1 (by decide),
   (AuditGetReply_validates_first linuxConsts 77 5 32 (recvInto 32 (frameBytes NLMSG_DONE 5 78 []))
      [] { Header := { Len := 16, Typ := NLMSG_DONE, Flags := 0, Seq := 5, Pid := 78 },
           Data := { elems := [], room := List.replicate 16 0 } } [] (by decide)).2 (by decide) (by decide)⟩

theorem errorCode_of_four (m : NetlinkMessage) (b0 b1 b2 b3 : Byte) (rest : List Byte)
    (hd : m.Data.elems = b0 :: b1 :: b2 :: b3 :: rest) :
    errorCode m = .ret (toInt32 (leUint32 b0 b1 b2 b3)) := by
  have hc : (0 : Int) ≤ 4 ∧ (4 : Int) ≤ m.Data.cap := by
    simp only [ByteSlice.cap, hd, List.length_cons]
    omega
  simp only [errorCode, ByteSlice.sliceTo, hc, and_self, if_true, Run.bind_ret, hd]
  rfl

/-- C6. For a first frame of type `ERROR` with the expected sequence and pid and a
payload of at least four bytes, `AuditGetReply` reads the first four payload bytes as a
signed 32-bit little-endian code; it returns the nil error when the code is 0 and
otherwise the error that carries the code. -/
theorem AuditGetReply_error_frame (k : AuditConsts) (pid seq : Nat) (bytesize : Int)
    (r : RecvResult) (rs : List RecvResult) (m : NetlinkMessage) (ms : List NetlinkMessage)
    (b0 b1 b2 b3 : Byte) (rest : List Byte)
    (hrecv : Receive bytesize r = .ret (m :: ms, none))
    (hs : m.Header.Seq = seq) (hp : m.Header.Pid = pid) (ht : m.Header.Typ = NLMSG_ERROR)
    (hd : m.Data.elems = b0 :: b1 :: b2 :: b3 :: rest) :
    AuditGetReply k (.netlink pid) bytesize seq (r :: rs)
      = if toInt32 (leUint32 b0 b1 b2 b3) = 0 then .ret none
        else .ret (some (GoError.kernelReply (toInt32 (leUint32 b0 b1 b2 b3)))) := by
  have hnd : ¬ (NLMSG_ERROR = NLMSG_DONE) := by decide
  rw [AuditGetReply_cons k _ bytesize seq r rs _ hrecv]
  simp only [replyRange, hs, hp, ht, hnd, ne_eq, not_true_eq_false, if_true, if_false,
    errorCode_of_four m b0 b1 b2 b3 rest hd, Run.bind_ret]
  split <;> rfl

/-- C6, at the payload bytes of -13. -/
theorem AuditGetReply_error_frame_witness :
    AuditGetReply linuxConsts (.netlink 77) 32 5
        [recvInto 32 (frameBytes NLMSG_ERROR 5 77 [243, 255, 255, 255])]
      = .ret (some (GoError.kernelReply (-13))) :=
  AuditGetReply_error_frame linuxConsts 77 5 32
    (recvInto 32 (frameBytes NLMSG_ERROR 5 77 [243, 255, 255, 255])) []
    { Header := { Len := 20, Typ := NLMSG_ERROR, Flags := 0, Seq := 5, Pid := 77 },
      Data := { elems := [243, 255, 255, 255], room := List.replicate 12 0 } } []
    243 255 255 255 []
    (by decide) (by decide) (by decide) (by decide) (by decide)

/-- C7. When the first frame received is of type `DONE` with the expected sequence and
the bound pid, `AuditGetReply` returns the nil error after that one receive, whatever
else the socket holds. -/
theorem AuditGetReply_done (k : AuditConsts) (pid seq : Nat) (bytesize : Int)
    (r : RecvResult) (rs : List RecvResult) (m : NetlinkMessage) (ms : List NetlinkMessage)
    (hrecv : Receive bytesize r = .ret (m :: ms, none))
    (hs : m.Header.Seq = seq) (hp : m.Header.Pid = pid) (ht : m.Header.Typ = NLMSG_DONE) :
    AuditGetReply k (.netlink pid) bytesize seq (r :: rs) = .ret none := by
  rw [AuditGetReply_cons k _ bytesize seq r rs _ hrecv]
  simp only [replyRange, hs, hp, ht, ne_eq, not_true_eq_false, if_true, if_false, Run.bind_ret]

/-- C7, at a single receive that holds a single `DONE` frame. -/
theorem AuditGetReply_done_witness :
    AuditGetReply linuxConsts (.netlink 77) 32 5 [recvInto 32 (frameBytes NLMSG_DONE 5 77 [])]
      = .ret none :=
  AuditGetReply_done linuxConsts 77 5 32 (recvInto 32 (frameBytes NLMSG_DONE 5 77 [])) []
    { Header := { Len := 16, Typ := NLMSG_DONE, Flags := 0, Seq := 5, Pid := 77 },
      Data := { elems := [], room := List.replicate 16 0 } } []
    (by decide) (by decide) (by decide) (by decide)

/-! ## One aligned frame in a receive buffer -/

theorem parse_encoded_aligned (m : NetlinkMessage) (room : List Byte)
    (hr : m.Header.InRange) (hl : m.Header.Len = 16 + m.Data.elems.length)
    (h4 : m.Data.elems.length % 4 = 0) :
    parseAuditNetlinkMessage { elems := headerBytes m.Header ++ m.Data.elems, room := room }
      = .ret ([{ Header := m.Header, Data := { elems := m.Data.elems, room := room } }],
          none) := by
  have hn := headerBytes_length m.Header
  have z : padding (16 + m.Data.elems.length) = [] := by
    apply List.eq_nil_of_length_eq_zero
    rw [padding_length]
    omega
  have e : headerBytes m.Header ++ m.Data.elems
      = headerBytes m.Header ++ (m.Data.elems ++ (padding (16 + m.Data.elems.length) ++ [])) := by
    rw [z, List.append_nil, List.append_nil]
  obtain ⟨f, hf⟩ : ∃ f, (headerBytes m.Header ++ m.Data.elems).length = f + 1 :=
    ⟨(headerBytes m.Header ++ m.Data.elems).length - 1, by
      simp only [List.length_append, hn]
      omega⟩
  unfold parseAuditNetlinkMessage
  simp only [hf]
  rw [e, parseLoop_encoded _ m hr hl, parseLoop_short _ _ _ (by simp),
    stepData_encoded m hr hl, z]
  simp

theorem Receive_recvInto_frame (bytesize : Nat) (m : NetlinkMessage)
    (hr : m.Header.InRange) (hl : m.Header.Len = 16 + m.Data.elems.length)
    (h4 : m.Data.elems.length % 4 = 0) (hsize : 16 + m.Data.elems.length ≤ bytesize) :
    Receive (bytesize : Int) (recvInto bytesize (headerBytes m.Header ++ m.Data.elems))
      = .ret ([{ Header := m.Header,
                 Data := { elems := m.Data.elems,
                           room := List.replicate (bytesize - (16 + m.Data.elems.length)) 0 } }],
          none) := by
  have hn := headerBytes_length m.Header
  have hlen : (headerBytes m.Header ++ m.Data.elems).length = 16 + m.Data.elems.length := by
    rw [List.length_append, hn]
  have hb : ¬ ((bytesize : Int) < 0) := by omega
  have hmin : min (headerBytes m.Header ++ m.Data.elems).length bytesize
      = 16 + m.Data.elems.length := by
    rw [hlen]
    omega
  have hnr : ¬ (((16 + m.Data.elems.length : Nat) : Int) < (NLMSG_HDRLEN : Int)) := by
    simp only [NLMSG_HDRLEN]
    omega
  have htake : (headerBytes m.Header ++ m.Data.elems).take bytesize
      = headerBytes m.Header ++ m.Data.elems :=
    List.take_of_length_le (by omega)
  have hrv : recvInto bytesize (headerBytes m.Header ++ m.Data.elems)
      = { nr := ((16 + m.Data.elems.length : Nat) : Int),
          rb := (headerBytes m.Header ++ m.Data.elems)
            ++ List.replicate (bytesize - (16 + m.Data.elems.length)) 0,
          err := none } := by
    unfold recvInto
    rw [hmin, htake, hlen]
  rw [hrv]
  simp only [Receive, hb, if_false, ne_eq, not_true_eq_false, hnr, ByteSlice.ofList]
  rw [sliceTo_natCast _ _ (by simp only [List.length_append, hn]; omega)]
  simp only [List.append_nil, Run.bind_ret]
  rw [List.take_left' hlen, List.drop_left' hlen]
  exact parse_encoded_aligned m _ hr hl h4

/-! ## Short reads -/

theorem Receive_recvfrom_error (bytesize : Int) (r : RecvResult) (e : GoError)
    (hb : 0 ≤ bytesize) (he : r.err = some e) :
    Receive bytesize r = .ret ([], some (GoError.wrap "recvfrom failed" e)) := by
  have hb2 : ¬ bytesize < 0 := by omega
  simp only [Receive, hb2, he, if_false, ne_eq, not_false_eq_true, if_true, errorsWrap,
    reduceCtorEq]

/-- C8. A read that reports no system error and fewer than sixteen bytes makes
`Receive` return no message and the nil error: wrapping the nil error of the read gives
nil. -/
theorem Receive_short_read (bytesize : Int) (r : RecvResult)
    (hb : 0 ≤ bytesize) (he : r.err = none) (hn : r.nr < 16) :
    Receive bytesize r = .ret ([], none) := by
  have hb2 : ¬ bytesize < 0 := by omega
  have hn2 : r.nr < (NLMSG_HDRLEN : Int) := by
    simp only [NLMSG_HDRLEN]
    omega
  simp only [Receive, hb2, he, hn2, if_false, ne_eq, not_true_eq_false, if_true, errorsWrap]

set_option maxRecDepth 8000 in
/-- C8, at a read of eight bytes into a buffer of 32 that reports no system error:
`Receive` returns the nil error and no message; and `AuditGetReply`, which is given no
error, receives again. -/
theorem Receive_short_read_nil_error :
    Receive 32 (recvInto 32 [1, 2, 3, 4, 5, 6, 7, 8]) = .ret ([], none)
      ∧ AuditGetReply linuxConsts (.netlink 77) 32 5
          [recvInto 32 [1, 2, 3, 4, 5, 6, 7, 8],
           recvInto 32 (frameBytes NLMSG_DONE 5 77 [])] = .ret none :=
  ⟨Receive_short_read 32 (recvInto 32 [1, 2, 3, 4, 5, 6, 7, 8]) (by decide) (by decide)
    (by decide), by decide⟩

/-! ## The status query -/

theorem AuditIsEnabled_eq_statusLoop (k : AuditConsts) (sequenceNumber : Nat) (sock : Sockname)
    (recvs : List RecvResult) :
    AuditIsEnabled k sequenceNumber none sock recvs
      = statusLoop k sock ((sequenceNumber + 1) % 2 ^ 32) recvs := by
  have hw : ToWireFormat (newNetlinkAuditRequest sequenceNumber k.AUDIT_GET 0).1
      = .ret (headerBytes (newNetlinkAuditRequest sequenceNumber k.AUDIT_GET 0).1.Header
          ++ (newNetlinkAuditRequest sequenceNumber k.AUDIT_GET 0).1.Data.elems) :=
    ToWireFormat_of_le _ (by simp only [newNetlinkAuditRequest]; decide)
  simp only [AuditIsEnabled, Send, hw, Run.bind_ret, ne_eq, not_true_eq_false, if_false]
  rfl

theorem statusLoop_cons (k : AuditConsts) (sock : Sockname) (seq : Nat)
    (r : RecvResult) (rs : List RecvResult) (msgs : List NetlinkMessage)
    (hrecv : Receive k.MAX_AUDIT_MESSAGE_LENGTH r = .ret (msgs, none)) :
    statusLoop k sock seq (r :: rs)
      = (statusRange k sock seq msgs).bind fun ex =>
          match ex with
          | .breakDone => .ret (-1, none)
          | .returned state err => .ret (state, err)
          | .next => statusLoop k sock seq rs := by
  rw [statusLoop, hrecv]
  simp only [Run.bind_ret, ne_eq, not_true_eq_false, if_false]

/-- C9. When the first frame that answers the query is of type `ERROR` with the sequence
of the request, the bound pid and a code other than 0, `AuditIsEnabled` returns the
state -1 and the nil error: the rejection of the kernel leaves through `break done` and
the final `return -1, nil`. -/
theorem AuditIsEnabled_rejection (k : AuditConsts) (sequenceNumber pid : Nat)
    (r : RecvResult) (rs : List RecvResult) (m : NetlinkMessage) (ms : List NetlinkMessage)
    (b0 b1 b2 b3 : Byte) (rest : List Byte)
    (hrecv : Receive k.MAX_AUDIT_MESSAGE_LENGTH r = .ret (m :: ms, none))
    (hs : m.Header.Seq = (sequenceNumber + 1) % 2 ^ 32) (hp : m.Header.Pid = pid)
    (ht : m.Header.Typ = NLMSG_ERROR)
    (hd : m.Data.elems = b0 :: b1 :: b2 :: b3 :: rest)
    (hcode : toInt32 (leUint32 b0 b1 b2 b3) ≠ 0) :
    AuditIsEnabled k sequenceNumber none (.netlink pid) (r :: rs) = .ret (-1, none) := by
  have hnd : ¬ (NLMSG_ERROR = NLMSG_DONE) := by decide
  rw [AuditIsEnabled_eq_statusLoop, statusLoop_cons k _ _ r rs _ hrecv]
  simp only [statusRange, hs, hp, ht, hnd, ne_eq, not_true_eq_false, if_true, if_false,
    errorCode_of_four m b0 b1 b2 b3 rest hd, Run.bind_ret, hcode]

/-- C9, at the reply with code -13 to the first query of the process, received into a
buffer of `MAX_AUDIT_MESSAGE_LENGTH` bytes: the state is -1 and the error is nil. -/
theorem AuditIsEnabled_rejection_nil_error :
    AuditIsEnabled linuxConsts 0 none (.netlink 77)
        [recvInto 8970 (frameBytes NLMSG_ERROR 1 77 [243, 255, 255, 255])] = .ret (-1, none) :=
  AuditIsEnabled_rejection linuxConsts 0 77
    (recvInto 8970 (frameBytes NLMSG_ERROR 1 77 [243, 255, 255, 255])) []
    { Header := { Len := 20, Typ := NLMSG_ERROR, Flags := 0, Seq := 1, Pid := 77 },
      Data := { elems := [243, 255, 255, 255], room := List.replicate (8970 - (16 + 4)) 0 } }
    [] 243 255 255 255 []
    (Receive_recvInto_frame 8970
      { Header := { Len := 20, Typ := NLMSG_ERROR, Flags := 0, Seq := 1, Pid := 77 },
        Data := ByteSlice.ofList [243, 255, 255, 255] }
      (by decide) (by decide) (by decide) (by decide))
    (by decide) (by decide) (by decide) (by decide) (by decide)

theorem statusRange_acks (k : AuditConsts) (seq pid : Nat) (acks rest : List NetlinkMessage)
    (hacks : ∀ a ∈ acks, IsAck seq pid a) :
    statusRange k (.netlink pid) seq (acks ++ rest) = statusRange k (.netlink pid) seq rest := by
  have hnd : ¬ (NLMSG_ERROR = NLMSG_DONE) := by decide
  induction acks with
  | nil => rfl
  | cons a as ih =>
    obtain ⟨hs, hp, ht, hc⟩ := hacks a (List.mem_cons_self a as)
    rw [List.cons_append, statusRange]
    simp only [hs, hp, ht, hc, hnd, ne_eq, not_true_eq_false, if_true, if_false, Run.bind_ret]
    exact ih fun x hx => hacks x (List.mem_cons_of_mem a hx)

theorem statusLoop_acks (k : AuditConsts) (seq pid : Nat) (pre rs : List RecvResult)
    (hpre : ∀ r ∈ pre, ∃ acks, Receive k.MAX_AUDIT_MESSAGE_LENGTH r = .ret (acks, none)
      ∧ ∀ a ∈ acks, IsAck seq pid a) :
    statusLoop k (.netlink pid) seq (pre ++ rs) = statusLoop k (.netlink pid) seq rs := by
  induction pre with
  | nil => rfl
  | cons r pre ih =>
    obtain ⟨acks, hrecv, hacks⟩ := hpre r (List.mem_cons_self r pre)
    have h0 := statusRange_acks k seq pid acks [] hacks
    rw [List.append_nil] at h0
    rw [List.cons_append, statusLoop_cons k _ _ r _ _ hrecv, h0]
    simp only [statusRange, Run.bind_ret]
    exact ih fun x hx => hpre x (List.mem_cons_of_mem r hx)

theorem binaryReadStatus_of_le (data : List Byte) (h : 40 ≤ data.length) :
    ∃ st, binaryReadStatus data = .ok st
      ∧ st.Enabled
        = leUint32 (data.getD 4 0) (data.getD 5 0) (data.getD 6 0) (data.getD 7 0) := by
  have h1 : ¬ data.length = 0 := by omega
  have h2 : ¬ data.length < 40 := by omega
  simp only [binaryReadStatus, h1, h2, if_false]
  exact ⟨_, rfl, rfl⟩

theorem binaryReadStatus_of_lt (data : List Byte) (h : data.length < 40) :
    ∃ e, binaryReadStatus data = .error e := by
  unfold binaryReadStatus
  by_cases h1 : data.length = 0
  · exact ⟨_, if_pos h1⟩
  · rw [if_neg h1, if_pos h]
    exact ⟨_, rfl⟩

/-- C10. The query of `AuditIsEnabled` has been sent without error, with the sequence
that `newNetlinkAuditRequest` gave it. The receives `pre` hold nothing but
acknowledgements (error-typed frames with the sequence of the request, the bound pid and
code 0), and the next receive holds acknowledgements followed by a frame `m` of type
`AUDIT_GET` with the sequence of the request and the bound pid. Then the
acknowledgements are skipped and `m` decides the result: with a payload of at least 40
bytes it is the nil error and the `Enabled` field of the status structure, the
little-endian unsigned 32-bit integer at payload bytes 4 to 7; with a shorter payload
it is -1 and an error. -/
theorem AuditIsEnabled_status_reply (k : AuditConsts) (sequenceNumber pid : Nat)
    (pre : List RecvResult) (r : RecvResult) (post : List RecvResult)
    (acks : List NetlinkMessage) (m : NetlinkMessage) (ms : List NetlinkMessage)
    (hget1 : k.AUDIT_GET ≠ NLMSG_DONE) (hget2 : k.AUDIT_GET ≠ NLMSG_ERROR)
    (hpre : ∀ r0 ∈ pre, ∃ as, Receive k.MAX_AUDIT_MESSAGE_LENGTH r0 = .ret (as, none)
      ∧ ∀ a ∈ as, IsAck ((sequenceNumber + 1) % 2 ^ 32) pid a)
    (hrecv : Receive k.MAX_AUDIT_MESSAGE_LENGTH r = .ret (acks ++ m :: ms, none))
    (hacks : ∀ a ∈ acks, IsAck ((sequenceNumber + 1) % 2 ^ 32) pid a)
    (hs : m.Header.Seq = (sequenceNumber + 1) % 2 ^ 32) (hp : m.Header.Pid = pid)
    (ht : m.Header.Typ = k.AUDIT_GET) :
    (40 ≤ m.Data.elems.length →
        AuditIsEnabled k sequenceNumber none (.netlink pid) (pre ++ r :: post)
          = .ret (((leUint32 (m.Data.elems.getD 4 0) (m.Data.elems.getD 5 0)
              (m.Data.elems.getD 6 0) (m.Data.elems.getD 7 0) : Nat) : Int), none))
      ∧ (m.Data.elems.length < 40 →
        ∃ e, AuditIsEnabled k sequenceNumber none (.netlink pid) (pre ++ r :: post)
          = .ret (-1, some e)) := by
  rw [AuditIsEnabled_eq_statusLoop, statusLoop_acks k _ pid pre _ hpre,
    statusLoop_cons k _ _ r post _ hrecv, statusRange_acks k _ pid acks _ hacks, statusRange]
  simp only [hs, hp, ht, hget1, hget2, ne_eq, not_true_eq_false, if_true, if_false]
  constructor
  · intro h40
    obtain ⟨st, hst, hen⟩ := binaryReadStatus_of_le m.Data.elems h40
    simp only [hst, Run.bind_ret, hen]
  · intro h40
    obtain ⟨e, he⟩ := binaryReadStatus_of_lt m.Data.elems h40
    simp only [he, Run.bind_ret, errorsWrap]
    exact ⟨_, rfl⟩

/-- C10, at an acknowledgement in a first receive and a status reply with `Enabled` 1
in a second one, each received into a buffer of `MAX_AUDIT_MESSAGE_LENGTH` bytes. -/
theorem AuditIsEnabled_status_reply_witness :
    AuditIsEnabled linuxConsts 0 none (.netlink 77)
        [recvInto 8970 (frameBytes NLMSG_ERROR 1 77 [0, 0, 0, 0]),
         recvInto 8970 (frameBytes 1000 1 77 statusPayload)] = .ret (1, none) :=
  (AuditIsEnabled_status_reply linuxConsts 0 77
    [recvInto 8970 (frameBytes NLMSG_ERROR 1 77 [0, 0, 0, 0])]
    (recvInto 8970 (frameBytes 1000 1 77 statusPayload)) [] []
    { Header := { Len := 56, Typ := 1000, Flags := 0, Seq := 1, Pid := 77 },
      Data := { elems := statusPayload, room := List.replicate (8970 - (16 + 40)) 0 } } []
    (by decide) (by decide)
    (by
      intro r0 h0
      rw [List.mem_singleton] at h0
      subst h0
      refine ⟨_, Receive_recvInto_frame 8970
        { Header := { Len := 20, Typ := NLMSG_ERROR, Flags := 0, Seq := 1, Pid := 77 },
          Data := ByteSlice.ofList [0, 0, 0, 0] }
        (by decide) (by decide) (by decide) (by decide), ?_⟩
      intro a ha
      rw [List.mem_singleton] at ha
      subst ha
      exact ⟨rfl, rfl, rfl, errorCode_of_four _ 0 0 0 0 [] rfl⟩)
    (Receive_recvInto_frame 8970
      { Header := { Len := 56, Typ := 1000, Flags := 0, Seq := 1, Pid := 77 },
        Data := ByteSlice.ofList statusPayload }
      (by decide) (by decide) (by decide) (by decide))
    (by intro a ha; cases ha)
    (by decide) (by decide) (by decide)).1 (by decide)

theorem parse_encoded_unaligned (m : NetlinkMessage) (room : List Byte)
    (hr : m.Header.InRange) (hl : m.Header.Len = 16 + m.Data.elems.length)
    (h4 : m.Data.elems.length % 4 ≠ 0) :
    parseAuditNetlinkMessage { elems := headerBytes m.Header ++ m.Data.elems, room := room }
      = .panic := by
  have hn := headerBytes_length m.Header
  have hh : headerAt ((headerBytes m.Header ++ m.Data.elems) ++ room) = m.Header := by
    rw [List.append_assoc]
    exact headerAt_headerBytes m.Header hr _
  have hlen : (headerBytes m.Header ++ m.Data.elems).length = 16 + m.Data.elems.length := by
    rw [List.length_append, hn]
  unfold parseAuditNetlinkMessage
  simp only [hlen]
  have e : 16 + m.Data.elems.length = (15 + m.Data.elems.length) + 1 := by omega
  rw [e, parseLoop_good _ _ _ (by simp only [hh]; omega) (by simp only [hh, hlen]; omega)]
  simp only [hh, hlen, hl]
  rw [if_neg (by omega)]

/-! ## Decoding what was encoded -/

/-- C1. A message whose header length field is 16 plus its payload length, with a
payload length that is not a multiple of four, encodes to its header bytes followed by
its payload, and decoding that buffer panics whatever spare capacity the buffer has: the
header passes the length check and the cursor advance, the length rounded up to a
multiple of four, is beyond the end of the buffer. -/
theorem roundtrip_unaligned_panics (m : NetlinkMessage) (room : List Byte)
    (hr : m.Header.InRange) (hl : m.Header.Len = 16 + m.Data.elems.length)
    (h4 : m.Data.elems.length % 4 ≠ 0) :
    ToWireFormat m = .ret (headerBytes m.Header ++ m.Data.elems)
      ∧ parseAuditNetlinkMessage
          { elems := headerBytes m.Header ++ m.Data.elems, room := room } = .panic :=
  ⟨ToWireFormat_of_le m (by omega), parse_encoded_unaligned m room hr hl h4⟩

/-- C1, at a payload of one byte: the message encodes to seventeen bytes, and decoding
these seventeen bytes panics. -/
theorem roundtrip_unaligned_panics_witness :
    ToWireFormat oddMsg = .ret [17, 0, 0, 0, 16, 0, 5, 0, 2, 0, 0, 0, 0, 0, 0, 0, 12]
      ∧ parseAuditNetlinkMessage
          (ByteSlice.ofList [17, 0, 0, 0, 16, 0, 5, 0, 2, 0, 0, 0, 0, 0, 0, 0, 12])
        = .panic :=
  roundtrip_unaligned_panics oddMsg [] (by decide) (by decide) (by decide)

/-- The round trip for payload lengths that are multiples of four: decoding the
encoding gives the one message back, header and payload. -/
theorem roundtrip_aligned (m : NetlinkMessage) (room : List Byte)
    (hr : m.Header.InRange) (hl : m.Header.Len = 16 + m.Data.elems.length)
    (h4 : m.Data.elems.length % 4 = 0) :
    ToWireFormat m = .ret (headerBytes m.Header ++ m.Data.elems)
      ∧ parseAuditNetlinkMessage
          { elems := headerBytes m.Header ++ m.Data.elems, room := room }
        = .ret ([{ Header := m.Header, Data := { elems := m.Data.elems, room := room } }],
            none) :=
  ⟨ToWireFormat_of_le m (by omega), parse_encoded_aligned m room hr hl h4⟩

/-! ## The loop budget -/

theorem parseLoop_fuel_enough (fuel : Nat) :
    ∀ (b : ByteSlice) (msgs : List NetlinkMessage), b.elems.length ≤ fuel →
      parseLoop fuel b msgs ≠ .outOfFuel := by
  induction fuel with
  | zero =>
    intro b msgs hf
    rw [parseLoop_short 0 b msgs (by omega)]
    exact fun h => Run.noConfusion h
  | succ f ih =>
    intro b msgs hf
    by_cases h16 : b.elems.length < 16
    · rw [parseLoop_short _ b msgs h16]
      exact fun h => Run.noConfusion h
    · by_cases hbad : (headerAt (b.elems ++ b.room)).Len < 16
          ∨ b.elems.length < (headerAt (b.elems ++ b.room)).Len
      · rw [parseLoop_bad f b msgs (by omega) hbad]
        exact fun h => Run.noConfusion h
      · rw [parseLoop_good f b msgs (by omega) (by omega)]
        split
        · apply ih
          simp only [List.length_drop]
          omega
        · exact fun h => Run.noConfusion h

theorem parseAuditNetlinkMessage_fuel_enough (b : ByteSlice) :
    parseAuditNetlinkMessage b ≠ .outOfFuel :=
  parseLoop_fuel_enough b.elems.length b [] (Nat.le_refl _)

/-! ## Requests of the setters -/

theorem binaryWriteStatus_length (status : AuditStatus) :
    (binaryWriteStatus status).length = 40 := by
  simp [binaryWriteStatus, putUint32]

theorem statusRequest_fst (k : AuditConsts) (sequenceNumber : Nat) (status : AuditStatus) :
    (statusRequest k sequenceNumber status).1
      = { Header := { Len := 56, Typ := k.AUDIT_SET, Flags := Nat.lor NLM_F_REQUEST NLM_F_ACK,
                      Seq := (sequenceNumber + 1) % 2 ^ 32, Pid := 0 },
          Data := { elems := binaryWriteStatus status, room := [] } } := by
  simp only [statusRequest, newNetlinkAuditRequest, List.nil_append]
  rfl

theorem setStatus_sent (k : AuditConsts) (sequenceNumber : Nat) (sendto : Option GoError)
    (sock : Sockname) (pagesize : Int) (recvs : List RecvResult) (status : AuditStatus)
    (sendMsg : String) (replyMsg : Option String) :
    (setStatus k sequenceNumber sendto sock pagesize recvs status sendMsg replyMsg).sent
      = [headerBytes { Len := 56, Typ := k.AUDIT_SET,
                       Flags := Nat.lor NLM_F_REQUEST NLM_F_ACK,
                       Seq := (sequenceNumber + 1) % 2 ^ 32, Pid := 0 }
          ++ binaryWriteStatus status] := by
  have hw := ToWireFormat_of_le (statusRequest k sequenceNumber status).1
    (by rw [statusRequest_fst]; exact Nat.le_add_left 16 40)
  cases sendto with
  | none =>
    simp only [setStatus, Send, hw, Run.bind_ret, ne_eq, not_true_eq_false, if_false]
    rw [statusRequest_fst]
  | some e =>
    simp only [setStatus, Send, hw, Run.bind_ret, ne_eq, reduceCtorEq, not_false_eq_true,
      if_true]
    rw [statusRequest_fst]

/-- C11. Each setter hands exactly one datagram to `Sendto`, whatever its integer
argument `v` and whatever the socket does: the sixteen header bytes with length 56,
type `AUDIT_SET`, flags request|ack, the freshly incremented sequence and pid 0,
followed by the forty bytes of the status structure, ten fields in order, in which the
mask is the constant of the field being written, that field is `v` modulo `2 ^ 32` and
every other field is zero. -/
theorem setters_request (k : AuditConsts) (sequenceNumber : Nat) (sendto : Option GoError)
    (sock : Sockname) (pagesize : Int) (recvs : List RecvResult) (v : Int) :
    (AuditSetEnabled k sequenceNumber sendto sock pagesize recvs v).sent
        = [headerBytes { Len := 16 + 40, Typ := k.AUDIT_SET,
                         Flags := Nat.lor NLM_F_REQUEST NLM_F_ACK,
                         Seq := (sequenceNumber + 1) % 2 ^ 32, Pid := 0 }
            ++ binaryWriteStatus
              { Mask := k.AUDIT_STATUS_ENABLED, Enabled := (v % 2 ^ 32).toNat, Failure := 0,
                Pid := 0, RateLimit := 0, BacklogLimit := 0, Lost := 0, Backlog := 0,
                Version := 0, BacklogWaitTime := 0 }]
      ∧ (AuditSetPID k sequenceNumber sendto sock pagesize recvs v).sent
        = [headerBytes { Len := 16 + 40, Typ := k.AUDIT_SET,
                         Flags := Nat.lor NLM_F_REQUEST NLM_F_ACK,
                         Seq := (sequenceNumber + 1) % 2 ^ 32, Pid := 0 }
            ++ binaryWriteStatus
              { Mask := k.AUDIT_STATUS_PID, Enabled := 0, Failure := 0,
                Pid := (v % 2 ^ 32).toNat, RateLimit := 0, BacklogLimit := 0, Lost := 0,
                Backlog := 0, Version := 0, BacklogWaitTime := 0 }]
      ∧ (AuditSetRateLimit k sequenceNumber sendto sock pagesize recvs v).sent
        = [headerBytes { Len := 16 + 40, Typ := k.AUDIT_SET,
                         Flags := Nat.lor NLM_F_REQUEST NLM_F_ACK,
                         Seq := (sequenceNumber + 1) % 2 ^ 32, Pid := 0 }
            ++ binaryWriteStatus
              { Mask := k.AUDIT_STATUS_RATE_LIMIT, Enabled := 0, Failure := 0, Pid := 0,
                RateLimit := (v % 2 ^ 32).toNat, BacklogLimit := 0, Lost := 0, Backlog := 0,
                Version := 0, BacklogWaitTime := 0 }]
      ∧ (AuditSetBacklogLimit k sequenceNumber sendto sock pagesize recvs v).sent
        = [headerBytes { Len := 16 + 40, Typ := k.AUDIT_SET,
                         Flags := Nat.lor NLM_F_REQUEST NLM_F_ACK,
                         Seq := (sequenceNumber + 1) % 2 ^ 32, Pid := 0 }
            ++ binaryWriteStatus
              { Mask := k.AUDIT_STATUS_BACKLOG_LIMIT, Enabled := 0, Failure := 0, Pid := 0,
                RateLimit := 0, BacklogLimit := (v % 2 ^ 32).toNat, Lost := 0, Backlog := 0,
                Version := 0, BacklogWaitTime := 0 }]
      ∧ ∀ status : AuditStatus,
          binaryWriteStatus status
              = putUint32 status.Mask ++ putUint32 status.Enabled ++ putUint32 status.Failure
                ++ putUint32 status.Pid ++ putUint32 status.RateLimit
                ++ putUint32 status.BacklogLimit ++ putUint32 status.Lost
                ++ putUint32 status.Backlog ++ putUint32 status.Version
                ++ putUint32 status.BacklogWaitTime
            ∧ (binaryWriteStatus status).length = 40 := by
  refine ⟨?_, ?_, ?_, ?_, fun status => ⟨rfl, binaryWriteStatus_length status⟩⟩
  · unfold AuditSetEnabled
    rw [setStatus_sent]
    rfl
  · unfold AuditSetPID
    rw [setStatus_sent]
    rfl
  · unfold AuditSetRateLimit
    rw [setStatus_sent]
    rfl
  · unfold AuditSetBacklogLimit
    rw [setStatus_sent]
    rfl

/-! ## The length field of an encoding -/

/-- C12, at a message with header length field 20 and an empty payload: the encoding
has sixteen bytes and its first four bytes carry 20. -/
theorem ToWireFormat_length_field_counterexample :
    lengthMismatchMsg.Header.InRange
      ∧ lengthMismatchMsg.Data.elems.length = 0
      ∧ ToWireFormat lengthMismatchMsg
          = .ret [20, 0, 0, 0, 16, 0, 5, 0, 2, 0, 0, 0, 0, 0, 0, 0]
      ∧ leUint32 20 0 0 0 = 20
      ∧ ([20, 0, 0, 0, 16, 0, 5, 0, 2, 0, 0, 0, 0, 0, 0, 0] : List Byte).length = 16 := by
  decide

/-- C12, amended. For every message whose header length field is at least 16,
`ToWireFormat` returns 16 plus the payload length bytes and the first four of them carry
the header length field as the caller set it; the carried length equals 16 plus the
payload length, the number of bytes of the output, exactly when the header length field
of the message does. -/
theorem ToWireFormat_length_field (m : NetlinkMessage) (hr : m.Header.InRange)
    (h16 : 16 ≤ m.Header.Len) :
    ∃ w, ToWireFormat m = .ret w
      ∧ w.length = 16 + m.Data.elems.length
      ∧ leUint32 (w.getD 0 0) (w.getD 1 0) (w.getD 2 0) (w.getD 3 0) = m.Header.Len
      ∧ (leUint32 (w.getD 0 0) (w.getD 1 0) (w.getD 2 0) (w.getD 3 0) = w.length
          ↔ m.Header.Len = 16 + m.Data.elems.length) := by
  have hh := headerAt_headerBytes m.Header hr m.Data.elems
  have hlen : (headerBytes m.Header ++ m.Data.elems).length = 16 + m.Data.elems.length := by
    rw [List.length_append, headerBytes_length]
  have hf : leUint32 ((headerBytes m.Header ++ m.Data.elems).getD 0 0)
      ((headerBytes m.Header ++ m.Data.elems).getD 1 0)
      ((headerBytes m.Header ++ m.Data.elems).getD 2 0)
      ((headerBytes m.Header ++ m.Data.elems).getD 3 0) = m.Header.Len :=
    congrArg NlMsghdr.Len hh
  refine ⟨_, ToWireFormat_of_le m h16, hlen, hf, ?_⟩
  rw [hf, hlen]

/-- C12, amended, at the message of `TestWireFormat` (length field 20, four payload
bytes). -/
theorem ToWireFormat_length_field_witness :
    ∃ w, ToWireFormat testMsg = .ret w
      ∧ w.length = 16 + testMsg.Data.elems.length
      ∧ leUint32 (w.getD 0 0) (w.getD 1 0) (w.getD 2 0) (w.getD 3 0) = testMsg.Header.Len
      ∧ (leUint32 (w.getD 0 0) (w.getD 1 0) (w.getD 2 0) (w.getD 3 0) = w.length
          ↔ testMsg.Header.Len = 16 + testMsg.Data.elems.length) :=
  ToWireFormat_length_field testMsg (by decide) (by decide)

/-! ## The sequence counter -/

theorem requestsFrom_length (calls : List (Nat × Int)) :
    ∀ c : Nat, (requestsFrom c calls).1.length = calls.length := by
  induction calls with
  | nil => intro c; rfl
  | cons x xs ih =>
    intro c
    simp only [requestsFrom, List.length_cons, ih]

theorem requestsFrom_counter (calls : List (Nat × Int)) :
    ∀ c : Nat, c < 2 ^ 32 → (requestsFrom c calls).2 = (c + calls.length) % 2 ^ 32 := by
  induction calls with
  | nil =>
    intro c hc
    simp only [requestsFrom, List.length_nil, Nat.add_zero]
    omega
  | cons x xs ih =>
    intro c hc
    simp only [requestsFrom, newNetlinkAuditRequest, List.length_cons]
    rw [ih ((c + 1) % 2 ^ 32) (Nat.mod_lt _ (by decide))]
    omega

theorem requestsFrom_seq (calls : List (Nat × Int)) :
    ∀ (c n : Nat), n < calls.length →
      ((requestsFrom c calls).1.map fun m => m.Header.Seq)[n]? = some ((c + n + 1) % 2 ^ 32) := by
  induction calls with
  | nil =>
    intro c n hn
    simp at hn
  | cons x xs ih =>
    intro c n hn
    cases n with
    | zero => simp [requestsFrom, newNetlinkAuditRequest]
    | succ n =>
      simp only [requestsFrom, List.map_cons, List.getElem?_cons_succ]
      rw [ih _ n (by simpa using hn)]
      simp only [newNetlinkAuditRequest]
      congr 1
      omega

/-- C13. A call of `newNetlinkAuditRequest` sets the counter to its value plus one
modulo `2 ^ 32` and gives that value to the new message as its sequence. So, from the
counter 0 of a fresh process, after the calls `calls` the counter is their number modulo
`2 ^ 32`, the request of the call with index `n` (the `n + 1`-th request) has sequence
`(n + 1) mod 2 ^ 32`, the first request has sequence 1, and two requests fewer than
`2 ^ 32` calls apart have different sequences. -/
theorem sequence_numbers (calls : List (Nat × Int)) :
    (∀ (c proto : Nat) (size : Int),
        (newNetlinkAuditRequest c proto size).2 = (c + 1) % 2 ^ 32
          ∧ (newNetlinkAuditRequest c proto size).1.Header.Seq = (c + 1) % 2 ^ 32)
      ∧ (requestsFrom sequenceNumberInit calls).2 = calls.length % 2 ^ 32
      ∧ (∀ n, n < calls.length →
          ((requestsFrom sequenceNumberInit calls).1.map fun m => m.Header.Seq)[n]?
            = some ((n + 1) % 2 ^ 32))
      ∧ (0 < calls.length →
          ((requestsFrom sequenceNumberInit calls).1.map fun m => m.Header.Seq)[0]? = some 1)
      ∧ (∀ i j, i < j → j < calls.length → j - i < 2 ^ 32 →
          ((requestsFrom sequenceNumberInit calls).1.map fun m => m.Header.Seq)[i]?
            ≠ ((requestsFrom sequenceNumberInit calls).1.map fun m => m.Header.Seq)[j]?) := by
  refine ⟨fun c proto size => ⟨rfl, rfl⟩, ?_, ?_, ?_, ?_⟩
  · rw [requestsFrom_counter calls sequenceNumberInit (by decide)]
    simp only [sequenceNumberInit, Nat.zero_add]
  · intro n hn
    rw [requestsFrom_seq calls sequenceNumberInit n hn]
    simp only [sequenceNumberInit, Nat.zero_add]
  · intro h0
    rw [requestsFrom_seq calls sequenceNumberInit 0 h0]
    rfl
  · intro i j hij hj hd
    rw [requestsFrom_seq calls sequenceNumberInit i (by omega),
      requestsFrom_seq calls sequenceNumberInit j hj]
    simp only [sequenceNumberInit, Nat.zero_add, ne_eq, Option.some.injEq]
    omega

/-- C13, at three requests of a fresh process: their sequences are 1, 2 and 3 and the
counter is 3 afterwards. -/
theorem sequence_numbers_witness :
    (requestsFrom sequenceNumberInit [(1000, 0), (1001, 40), (1000, 0)]).2 = 3
      ∧ ((requestsFrom sequenceNumberInit [(1000, 0), (1001, 40), (1000, 0)]).1.map
            fun m => m.Header.Seq)[2]? = some 3
      ∧ ((requestsFrom sequenceNumberInit [(1000, 0), (1001, 40), (1000, 0)]).1.map
            fun m => m.Header.Seq)[0]? = some 1
      ∧ ((requestsFrom sequenceNumberInit [(1000, 0), (1001, 40), (1000, 0)]).1.map
            fun m => m.Header.Seq)[0]?
          ≠ ((requestsFrom sequenceNumberInit [(1000, 0), (1001, 40), (1000, 0)]).1.map
            fun m => m.Header.Seq)[2]? :=
  ⟨(sequence_numbers [(1000, 0), (1001, 40), (1000, 0)]).2.1,
   (sequence_numbers [(1000, 0), (1001, 40), (1000, 0)]).2.2.1 2 (by decide),
   (sequence_numbers [(1000, 0), (1001, 40), (1000, 0)]).2.2.2.1 (by decide),
   (sequence_numbers [(1000, 0), (1001, 40), (1000, 0)]).2.2.2.2 0 2 (by decide) (by decide)
     (by decide)⟩

/-! ## What a decode returns -/

theorem parseLoop_zero_long (b : ByteSlice) (acc : List NetlinkMessage)
    (h : 16 ≤ b.elems.length) : parseLoop 0 b acc = .outOfFuel := by
  have hg : b.len ≥ (NLMSG_HDRLEN : Int) := by
    simp only [ByteSlice.len, NLMSG_HDRLEN]
    omega
  rw [parseLoop]
  simp only [hg, if_true]

theorem stepData_length (b : ByteSlice)
    (hlo : 16 ≤ (headerAt (b.elems ++ b.room)).Len)
    (hhi : (headerAt (b.elems ++ b.room)).Len ≤ b.elems.length) :
    (stepData b).elems.length
      = if b.elems.length - 16 = (headerAt (b.elems ++ b.room)).Len
        then (headerAt (b.elems ++ b.room)).Len
        else (headerAt (b.elems ++ b.room)).Len - 16 := by
  unfold stepData
  simp only [List.length_take, List.length_drop]
  split <;> omega

theorem stepData_elems (b : ByteSlice) :
    (stepData b).elems
      = if b.elems.length - 16 = (headerAt (b.elems ++ b.room)).Len
        then b.elems.drop 16
        else (b.elems.drop 16).take ((headerAt (b.elems ++ b.room)).Len - 16) := by
  unfold stepData
  by_cases hd : b.elems.length - 16 = (headerAt (b.elems ++ b.room)).Len
  · simp only [if_pos hd]
    exact List.take_of_length_le (by simp only [List.length_drop]; omega)
  · simp only [if_neg hd]

/-- Induction over the iterations of the decode loop.  `P b new` is a property of the
messages `new` that the loop appends from the cursor `b` on when it returns without
error. -/
theorem parseLoop_result (P : ByteSlice → List NetlinkMessage → Prop)
    (hshort : ∀ b : ByteSlice, b.elems.length < 16 → P b [])
    (hstep : ∀ (b : ByteSlice) (new : List NetlinkMessage),
      16 ≤ (headerAt (b.elems ++ b.room)).Len →
      (headerAt (b.elems ++ b.room)).Len ≤ b.elems.length →
      ((headerAt (b.elems ++ b.room)).Len + 3) / 4 * 4 ≤ b.elems.length →
      P { elems := b.elems.drop (((headerAt (b.elems ++ b.room)).Len + 3) / 4 * 4),
          room := b.room } new →
      P b ({ Header := headerAt (b.elems ++ b.room), Data := stepData b } :: new))
    (fuel : Nat) :
    ∀ (b : ByteSlice) (acc msgs : List NetlinkMessage) (err : Option GoError),
      parseLoop fuel b acc = .ret (msgs, err) →
      (err = none ∧ ∃ new, msgs = acc ++ new ∧ P b new) ∨ (err ≠ none ∧ msgs = []) := by
  induction fuel with
  | zero =>
    intro b acc msgs err h
    by_cases h16 : b.elems.length < 16
    · rw [parseLoop_short 0 b acc h16] at h
      simp only [Run.ret.injEq, Prod.mk.injEq] at h
      exact Or.inl ⟨h.2.symm, [], by rw [List.append_nil, h.1], hshort b h16⟩
    · rw [parseLoop_zero_long b acc (by omega)] at h
      exact Run.noConfusion h
  | succ f ih =>
    intro b acc msgs err h
    by_cases h16 : b.elems.length < 16
    · rw [parseLoop_short _ b acc h16] at h
      simp only [Run.ret.injEq, Prod.mk.injEq] at h
      exact Or.inl ⟨h.2.symm, [], by rw [List.append_nil, h.1], hshort b h16⟩
    · by_cases hbad : (headerAt (b.elems ++ b.room)).Len < 16
          ∨ b.elems.length < (headerAt (b.elems ++ b.room)).Len
      · rw [parseLoop_bad f b acc (by omega) hbad] at h
        simp only [Run.ret.injEq, Prod.mk.injEq] at h
        refine Or.inr ⟨?_, h.1.symm⟩
        rw [← h.2]
        exact fun e => Option.noConfusion e
      · have hlo : 16 ≤ (headerAt (b.elems ++ b.room)).Len := by omega
        have hhi : (headerAt (b.elems ++ b.room)).Len ≤ b.elems.length := by omega
        rw [parseLoop_good f b acc hlo hhi] at h
        by_cases ha : ((headerAt (b.elems ++ b.room)).Len + 3) / 4 * 4 ≤ b.elems.length
        · rw [if_pos ha] at h
          rcases ih _ _ _ _ h with ⟨he, new, hm, hp⟩ | ⟨he, hm⟩
          · refine Or.inl ⟨he, _ :: new, ?_, hstep b new hlo hhi ha hp⟩
            rw [hm, List.append_assoc]
            rfl
          · exact Or.inr ⟨he, hm⟩
        · rw [if_neg ha] at h
          exact Run.noConfusion h

theorem parse_result (P : ByteSlice → List NetlinkMessage → Prop)
    (hshort : ∀ b : ByteSlice, b.elems.length < 16 → P b [])
    (hstep : ∀ (b : ByteSlice) (new : List NetlinkMessage),
      16 ≤ (headerAt (b.elems ++ b.room)).Len →
      (headerAt (b.elems ++ b.room)).Len ≤ b.elems.length →
      ((headerAt (b.elems ++ b.room)).Len + 3) / 4 * 4 ≤ b.elems.length →
      P { elems := b.elems.drop (((headerAt (b.elems ++ b.room)).Len + 3) / 4 * 4),
          room := b.room } new →
      P b ({ Header := headerAt (b.elems ++ b.room), Data := stepData b } :: new))
    (b : ByteSlice) (msgs : List NetlinkMessage) (err : Option GoError)
    (h : parseAuditNetlinkMessage b = .ret (msgs, err)) :
    (err = none ∧ P b msgs) ∨ (err ≠ none ∧ msgs = []) := by
  rcases parseLoop_result P hshort hstep _ b [] msgs err h with ⟨he, new, hm, hp⟩ | hr
  · rw [List.nil_append] at hm
    rw [hm]
    exact Or.inl ⟨he, hp⟩
  · exact Or.inr hr

/-! ## The payload of a decoded message -/

/-- C14. Let the first header of a buffer pass the length check. The first iteration of
the decode loop builds a message with that header whose payload is all the bytes behind
the header, as many as the header declares, when their number equals the declared
length, and otherwise the first declared length minus 16 of them. The loop goes on with
this message appended, or panics when its cursor advance exceeds the buffer, and every
list of messages that the decode returns without error begins with this message. -/
theorem parse_payload_split (b : ByteSlice)
    (hlo : 16 ≤ (headerAt (b.elems ++ b.room)).Len)
    (hhi : (headerAt (b.elems ++ b.room)).Len ≤ b.elems.length) :
    ∃ d : ByteSlice,
      (b.elems.length - 16 = (headerAt (b.elems ++ b.room)).Len →
          d.elems = b.elems.drop 16 ∧ d.elems.length = (headerAt (b.elems ++ b.room)).Len)
        ∧ (b.elems.length - 16 ≠ (headerAt (b.elems ++ b.room)).Len →
          d.elems = (b.elems.drop 16).take ((headerAt (b.elems ++ b.room)).Len - 16)
            ∧ d.elems.length = (headerAt (b.elems ++ b.room)).Len - 16)
        ∧ (∀ (fuel : Nat) (acc : List NetlinkMessage),
            parseLoop (fuel + 1) b acc
              = if ((headerAt (b.elems ++ b.room)).Len + 3) / 4 * 4 ≤ b.elems.length then
                  parseLoop fuel
                    { elems := b.elems.drop (((headerAt (b.elems ++ b.room)).Len + 3) / 4 * 4),
                      room := b.room }
                    (acc ++ [{ Header := headerAt (b.elems ++ b.room), Data := d }])
                else .panic)
        ∧ (∀ msgs, parseAuditNetlinkMessage b = .ret (msgs, none) →
            ∃ ms, msgs = { Header := headerAt (b.elems ++ b.room), Data := d } :: ms) := by
  refine ⟨stepData b, ?_, ?_, fun fuel acc => parseLoop_good fuel b acc hlo hhi, ?_⟩
  · intro hd
    have h1 := stepData_elems b
    have h2 := stepData_length b hlo hhi
    rw [if_pos hd] at h1 h2
    exact ⟨h1, h2⟩
  · intro hd
    have h1 := stepData_elems b
    have h2 := stepData_length b hlo hhi
    rw [if_neg hd] at h1 h2
    exact ⟨h1, h2⟩
  · intro msgs h
    have key := parse_result
      (fun c new => 16 ≤ (headerAt (c.elems ++ c.room)).Len →
        (headerAt (c.elems ++ c.room)).Len ≤ c.elems.length →
        ∃ ms, new = { Header := headerAt (c.elems ++ c.room), Data := stepData c } :: ms)
      (fun c hc h1 h2 => absurd (Nat.le_trans h1 h2) (by omega))
      (fun c new _ _ _ _ _ _ => ⟨new, rfl⟩) b msgs none h
    rcases key with ⟨_, hp⟩ | ⟨he, _⟩
    · exact hp hlo hhi
    · exact absurd rfl he

/-- C14, at a buffer of 32 bytes whose first header declares 16: sixteen bytes follow the
header, as many as declared, and they are the payload of the first message. -/
theorem parse_payload_split_witness :
    ∃ d : ByteSlice,
      d.elems = [16, 0, 0, 0, 3, 0, 0, 0, 2, 0, 0, 0, 0, 0, 0, 0]
        ∧ ∃ ms, parseAuditNetlinkMessage (ByteSlice.ofList
              [16, 0, 0, 0, 3, 0, 0, 0, 1, 0, 0, 0, 0, 0, 0, 0,
               16, 0, 0, 0, 3, 0, 0, 0, 2, 0, 0, 0, 0, 0, 0, 0])
            = .ret ({ Header := (emptyMsg 1).Header, Data := d } :: ms, none) := by
  obtain ⟨d, h1, _, _, h4⟩ := parse_payload_split (ByteSlice.ofList
      [16, 0, 0, 0, 3, 0, 0, 0, 1, 0, 0, 0, 0, 0, 0, 0,
       16, 0, 0, 0, 3, 0, 0, 0, 2, 0, 0, 0, 0, 0, 0, 0]) (by decide) (by decide)
  have hrun : parseAuditNetlinkMessage (ByteSlice.ofList
      [16, 0, 0, 0, 3, 0, 0, 0, 1, 0, 0, 0, 0, 0, 0, 0,
       16, 0, 0, 0, 3, 0, 0, 0, 2, 0, 0, 0, 0, 0, 0, 0])
      = .ret ([{ Header := (emptyMsg 1).Header,
                 Data := ByteSlice.ofList [16, 0, 0, 0, 3, 0, 0, 0, 2, 0, 0, 0, 0, 0, 0, 0] },
               emptyMsg 2], none) := by decide
  obtain ⟨ms, hms⟩ := h4 _ hrun
  refine ⟨d, (h1 (by decide)).1, ms, ?_⟩
  rw [hrun, hms]
  rfl

/-! ## The bytes that the decoded messages stand for -/

theorem wireTotal_cons (m : NetlinkMessage) (ms : List NetlinkMessage) :
    wireTotal (m :: ms) = 16 + m.Data.elems.length + wireTotal ms := by
  simp [wireTotal]

/-- C16, at a buffer of two messages without payload: the decode returns two messages
that stand for 48 bytes, out of a buffer of 32; the sixteen bytes of the second header
are also the payload of the first message. -/
theorem parse_overlap_counterexample :
    parseAuditNetlinkMessage (ByteSlice.ofList
        [16, 0, 0, 0, 3, 0, 0, 0, 1, 0, 0, 0, 0, 0, 0, 0,
         16, 0, 0, 0, 3, 0, 0, 0, 2, 0, 0, 0, 0, 0, 0, 0])
      = .ret ([{ Header := (emptyMsg 1).Header,
                 Data := ByteSlice.ofList [16, 0, 0, 0, 3, 0, 0, 0, 2, 0, 0, 0, 0, 0, 0, 0] },
               emptyMsg 2], none)
      ∧ wireTotal [{ Header := (emptyMsg 1).Header,
                     Data := ByteSlice.ofList
                       [16, 0, 0, 0, 3, 0, 0, 0, 2, 0, 0, 0, 0, 0, 0, 0] },
                   emptyMsg 2] = 48
      ∧ ([16, 0, 0, 0, 3, 0, 0, 0, 1, 0, 0, 0, 0, 0, 0, 0,
          16, 0, 0, 0, 3, 0, 0, 0, 2, 0, 0, 0, 0, 0, 0, 0] : List Byte).length = 32 := by
  refine ⟨by decide, by decide, by decide⟩

/-- C16, amended. For every buffer that `parseAuditNetlinkMessage` decodes without
error: when every returned message has a payload of its declared length minus 16 bytes
(none was cut by the workaround branch), the sum over the returned messages of 16 plus
the payload length is at most the length of the buffer; and in every case that sum is
at most the length of the buffer plus 16, the one header that a payload cut by the
workaround branch can share with the message behind it. -/
theorem parse_wireTotal (b : ByteSlice) (msgs : List NetlinkMessage)
    (h : parseAuditNetlinkMessage b = .ret (msgs, none)) :
    ((∀ m ∈ msgs, m.Data.elems.length + 16 = m.Header.Len) →
        wireTotal msgs ≤ b.elems.length)
      ∧ wireTotal msgs ≤ b.elems.length + 16 := by
  constructor
  · have key := parse_result
      (fun c new => (∀ m ∈ new, m.Data.elems.length + 16 = m.Header.Len) →
        wireTotal new ≤ c.elems.length)
      (fun c _ _ => Nat.zero_le _)
      (fun c new hlo hhi ha ih hall => by
        have h1 := hall _ (List.mem_cons_self _ _)
        have h2 := ih fun m hm => hall m (List.mem_cons_of_mem _ hm)
        simp only [List.length_drop] at h2
        rw [wireTotal_cons]
        dsimp only at h1 ⊢
        omega)
      b msgs none h
    rcases key with ⟨_, hp⟩ | ⟨he, _⟩
    · exact hp
    · exact absurd rfl he
  · have key := parse_result
      (fun c new => wireTotal new
        ≤ if c.elems.length < 32 then c.elems.length else c.elems.length + 16)
      (fun c hc => by
        beta_reduce
        rw [if_pos (by omega)]
        exact Nat.zero_le _)
      (fun c new hlo hhi ha ih => by
        have hd := stepData_length c hlo hhi
        simp only [List.length_drop] at ih
        beta_reduce
        rw [wireTotal_cons]
        dsimp only
        split at hd <;> split at ih <;> split <;> omega)
      b msgs none h
    rcases key with ⟨_, hp⟩ | ⟨he, _⟩
    · split at hp <;> omega
    · exact absurd rfl he

/-- C16, amended, at the buffer of `TestWireFormat`: one message that stands for the
twenty bytes of the buffer. -/
theorem parse_wireTotal_witness :
    wireTotal [testMsg] ≤ 20 ∧ wireTotal [testMsg] ≤ 20 + 16 :=
  ⟨(parse_wireTotal
      (ByteSlice.ofList [20, 0, 0, 0, 16, 0, 5, 0, 2, 0, 0, 0, 0, 0, 0, 0, 12, 0, 0, 0])
      [testMsg] (by decide)).1 (by decide),
   (parse_wireTotal
      (ByteSlice.ofList [20, 0, 0, 0, 16, 0, 5, 0, 2, 0, 0, 0, 0, 0, 0, 0, 12, 0, 0, 0])
      [testMsg] (by decide)).2⟩

/-! ## Cursor advance beyond the buffer -/

theorem parseLoop_overrun_after (k : Nat) :
    ∀ (fuel : Nat) (b p : ByteSlice) (acc : List NetlinkMessage),
      b.elems.length ≤ fuel → cursorAfter k b = some p →
      16 ≤ (headerAt (p.elems ++ p.room)).Len →
      (headerAt (p.elems ++ p.room)).Len ≤ p.elems.length →
      p.elems.length < ((headerAt (p.elems ++ p.room)).Len + 3) / 4 * 4 →
      parseLoop fuel b acc = .panic := by
  induction k with
  | zero =>
    intro fuel b p acc hf hc hlo hhi hover
    simp only [cursorAfter, Option.some.injEq] at hc
    subst hc
    obtain ⟨f, rfl⟩ : ∃ f, fuel = f + 1 := ⟨fuel - 1, by omega⟩
    rw [parseLoop_good f b acc hlo hhi, if_neg (by omega)]
  | succ k ih =>
    intro fuel b p acc hf hc hlo hhi hover
    obtain ⟨hlo1, hhi1, ha, hrest⟩ := cursorAfter_succ k b p hc
    obtain ⟨f, rfl⟩ : ∃ f, fuel = f + 1 := ⟨fuel - 1, by omega⟩
    rw [parseLoop_good f b acc hlo1 hhi1, if_pos ha]
    apply ih f _ p _ _ hrest hlo hhi hover
    simp only [List.length_drop]
    omega

/-- C15. When the decode walk over a buffer reaches, after any number `k` of decoded
messages, a position whose header passes the length check (16 <= declared length <=
bytes left) while the declared length rounded up to a multiple of four exceeds the bytes
left, the cursor advance `nlmAlignOf` of the declared length exceeds the bytes left and
`parseAuditNetlinkMessage` ends in a run-time panic: it returns neither an error nor
messages. -/
theorem parse_panics_on_overrun (b p : ByteSlice) (k : Nat)
    (hreach : cursorAfter k b = some p)
    (hlo : 16 ≤ (headerAt (p.elems ++ p.room)).Len)
    (hhi : (headerAt (p.elems ++ p.room)).Len ≤ p.elems.length)
    (hover : p.elems.length < ((headerAt (p.elems ++ p.room)).Len + 3) / 4 * 4) :
    nlmAlignOf ((headerAt (p.elems ++ p.room)).Len : Int) > p.len
      ∧ parseAuditNetlinkMessage b = .panic := by
  refine ⟨?_, parseLoop_overrun_after k b.elems.length b p [] (Nat.le_refl _) hreach hlo hhi
    hover⟩
  have hl := headerAt_Len_lt (p.elems ++ p.room)
  rw [nlmAlignOf_natCast _ (by omega)]
  simp only [ByteSlice.len, gt_iff_lt]
  omega

/-- C15, at a buffer of 34 bytes: a message without payload and then a header that
declares 18 with 18 bytes left. The second header passes the length check, the cursor
advance is 20, and the decode panics. -/
theorem parse_panics_on_overrun_witness :
    nlmAlignOf 18 > 18
      ∧ parseAuditNetlinkMessage (ByteSlice.ofList
          [16, 0, 0, 0, 3, 0, 0, 0, 1, 0, 0, 0, 0, 0, 0, 0,
           18, 0, 0, 0, 3, 0, 0, 0, 2, 0, 0, 0, 0, 0, 0, 0, 7, 7]) = .panic :=
  parse_panics_on_overrun
    (ByteSlice.ofList [16, 0, 0, 0, 3, 0, 0, 0, 1, 0, 0, 0, 0, 0, 0, 0,
      18, 0, 0, 0, 3, 0, 0, 0, 2, 0, 0, 0, 0, 0, 0, 0, 7, 7])
    (ByteSlice.ofList [18, 0, 0, 0, 3, 0, 0, 0, 2, 0, 0, 0, 0, 0, 0, 0, 7, 7]) 1
    (by decide) (by decide) (by decide) (by decide)

/-! ## Termination of the decode loop -/

theorem parseLoop_fuel_irrelevant (f1 : Nat) :
    ∀ (f2 : Nat) (b : ByteSlice) (acc : List NetlinkMessage),
      b.elems.length ≤ f1 → b.elems.length ≤ f2 → parseLoop f1 b acc = parseLoop f2 b acc := by
  induction f1 with
  | zero =>
    intro f2 b acc h1 h2
    rw [parseLoop_short 0 b acc (by omega), parseLoop_short f2 b acc (by omega)]
  | succ f ih =>
    intro f2 b acc h1 h2
    by_cases h16 : b.elems.length < 16
    · rw [parseLoop_short _ b acc h16, parseLoop_short f2 b acc h16]
    · obtain ⟨g, rfl⟩ : ∃ g, f2 = g + 1 := ⟨f2 - 1, by omega⟩
      by_cases hbad : (headerAt (b.elems ++ b.room)).Len < 16
          ∨ b.elems.length < (headerAt (b.elems ++ b.room)).Len
      · rw [parseLoop_bad f b acc (by omega) hbad, parseLoop_bad g b acc (by omega) hbad]
      · rw [parseLoop_good f b acc (by omega) (by omega),
          parseLoop_good g b acc (by omega) (by omega)]
        split
        · apply ih <;> simp only [List.length_drop] <;> omega
        · rfl

/-- C19. The decode loop needs no more iterations than the buffer has bytes: the model
never uses up its budget and a larger budget gives the same result. An iteration that
goes on leaves a cursor at least 16 bytes shorter; a decode that returns gives at most
`n / 16` messages for a buffer of `n` bytes; and a buffer shorter than 16 bytes gives
the empty list and no error. -/
theorem parse_terminates (b : ByteSlice) :
    parseAuditNetlinkMessage b ≠ .outOfFuel
      ∧ (∀ fuel, b.elems.length ≤ fuel → parseLoop fuel b [] = parseAuditNetlinkMessage b)
      ∧ (∀ p, cursorAfter 1 b = some p → p.elems.length + 16 ≤ b.elems.length)
      ∧ (∀ msgs err, parseAuditNetlinkMessage b = .ret (msgs, err) →
          msgs.length ≤ b.elems.length / 16)
      ∧ (b.elems.length < 16 → parseAuditNetlinkMessage b = .ret ([], none)) := by
  refine ⟨parseAuditNetlinkMessage_fuel_enough b,
    fun fuel hf => parseLoop_fuel_irrelevant fuel _ b [] hf (Nat.le_refl _), ?_, ?_,
    fun h => parseLoop_short _ b [] h⟩
  · intro p hp
    obtain ⟨hlo, _, ha, hrest⟩ := cursorAfter_succ 0 b p hp
    simp only [cursorAfter, Option.some.injEq] at hrest
    rw [← hrest]
    simp only [List.length_drop]
    omega
  · intro msgs err h
    have key := parse_result (fun c new => new.length * 16 ≤ c.elems.length)
      (fun c _ => by simp)
      (fun c new hlo hhi ha ih => by
        simp only [List.length_drop] at ih
        simp only [List.length_cons]
        omega)
      b msgs err h
    rcases key with ⟨_, hp⟩ | ⟨_, hm⟩
    · omega
    · rw [hm]
      exact Nat.zero_le _

/-- C19, at the buffer of `TestWireFormat`, twenty bytes that give one message, at a
buffer of three bytes, and at a buffer of 24 bytes whose cursor has 4 bytes left after
one iteration. -/
theorem parse_terminates_witness :
    ([testMsg] : List NetlinkMessage).length ≤ 20 / 16
      ∧ parseAuditNetlinkMessage (ByteSlice.ofList [1, 2, 3]) = .ret ([], none)
      ∧ (ByteSlice.ofList [12, 0, 0, 0] : ByteSlice).elems.length + 16 ≤ 24 :=
  ⟨(parse_terminates
      (ByteSlice.ofList [20, 0, 0, 0, 16, 0, 5, 0, 2, 0, 0, 0, 0, 0, 0, 0, 12, 0, 0, 0])).2.2.2.1
      [testMsg] none (by decide),
   (parse_terminates (ByteSlice.ofList [1, 2, 3])).2.2.2.2 (by decide),
   (parse_terminates
      (ByteSlice.ofList [20, 0, 0, 0, 16, 0, 5, 0, 2, 0, 0, 0, 0, 0, 0, 0,
        12, 0, 0, 0, 12, 0, 0, 0])).2.2.1
      (ByteSlice.ofList [12, 0, 0, 0]) (by decide)⟩

/-! ## Alignment -/

theorem cursorAfter_one (b : ByteSlice)
    (hlo : 16 ≤ (headerAt (b.elems ++ b.room)).Len)
    (hhi : (headerAt (b.elems ++ b.room)).Len ≤ b.elems.length)
    (ha : ((headerAt (b.elems ++ b.room)).Len + 3) / 4 * 4 ≤ b.elems.length) :
    cursorAfter 1 b
      = some { elems := b.elems.drop (((headerAt (b.elems ++ b.room)).Len + 3) / 4 * 4),
               room := b.room } := by
  have hg : b.len ≥ (NLMSG_HDRLEN : Int) := by
    simp only [ByteSlice.len, NLMSG_HDRLEN]
    omega
  rw [cursorAfter, if_pos hg, netlinkMessageHeaderAndData_good b hlo hhi]
  simp only [sliceFrom_natCast, if_pos ha, cursorAfter]

/-- C18. For every length `n` with `0 <= n <= 2^31 - 4`, `nlmAlignOf n` is the smallest
multiple of four that is at least `n`: it is a multiple of four between `n` and `n + 3`,
no multiple of four from `n` on is smaller, and it is `n` when `n` is a multiple of
four. And when a header passes the length check and the loop goes on after its message,
the cursor has moved by exactly `nlmAlignOf` of the declared length: the new cursor is
the old one without its first `nlmAlignOf(declared length)` bytes. -/
theorem nlmAlignOf_rounds_up :
    (∀ n : Int, 0 ≤ n → n ≤ 2 ^ 31 - 4 →
        4 ∣ nlmAlignOf n ∧ n ≤ nlmAlignOf n ∧ nlmAlignOf n ≤ n + 3
          ∧ (∀ m : Int, 4 ∣ m → n ≤ m → nlmAlignOf n ≤ m)
          ∧ (4 ∣ n → nlmAlignOf n = n))
      ∧ (∀ b : ByteSlice,
          16 ≤ (headerAt (b.elems ++ b.room)).Len →
          (headerAt (b.elems ++ b.room)).Len ≤ b.elems.length →
          nlmAlignOf ((headerAt (b.elems ++ b.room)).Len : Int) ≤ b.len →
          cursorAfter 1 b
              = some { elems := b.elems.drop
                         (nlmAlignOf ((headerAt (b.elems ++ b.room)).Len : Int)).toNat,
                       room := b.room }
            ∧ ((b.elems.drop
                  (nlmAlignOf ((headerAt (b.elems ++ b.room)).Len : Int)).toNat).length : Int)
                = b.len - nlmAlignOf ((headerAt (b.elems ++ b.room)).Len : Int)
            ∧ ∀ (fuel : Nat) (acc : List NetlinkMessage),
                parseLoop (fuel + 1) b acc
                  = parseLoop fuel
                      { elems := b.elems.drop
                          (nlmAlignOf ((headerAt (b.elems ++ b.room)).Len : Int)).toNat,
                        room := b.room }
                      (acc ++ [{ Header := headerAt (b.elems ++ b.room),
                                 Data := stepData b }])) := by
  constructor
  · intro n h0 h1
    obtain ⟨k, rfl⟩ : ∃ k : Nat, n = (k : Int) := ⟨n.toNat, by omega⟩
    rw [nlmAlignOf_natCast k (by omega)]
    refine ⟨by omega, by omega, by omega, fun m hm hn => by omega, fun hn => by omega⟩
  · intro b hlo hhi hfit
    have hl := headerAt_Len_lt (b.elems ++ b.room)
    rw [nlmAlignOf_natCast _ (by omega)] at hfit ⊢
    have ha : ((headerAt (b.elems ++ b.room)).Len + 3) / 4 * 4 ≤ b.elems.length := by
      simp only [ByteSlice.len] at hfit
      omega
    rw [Int.toNat_ofNat]
    refine ⟨cursorAfter_one b hlo hhi ha, ?_, fun fuel acc => ?_⟩
    · simp only [List.length_drop, ByteSlice.len]
      omega
    · rw [parseLoop_good fuel b acc hlo hhi, if_pos ha]

/-- C18, at the length 17, which rounds up to 20, and at the buffer of
`TestWireFormat` followed by four more bytes: after the message of twenty bytes the
cursor holds the last four bytes. -/
theorem nlmAlignOf_rounds_up_witness :
    nlmAlignOf 17 = 20 ∧ nlmAlignOf 20 = 20
      ∧ cursorAfter 1 (ByteSlice.ofList
          [20, 0, 0, 0, 16, 0, 5, 0, 2, 0, 0, 0, 0, 0, 0, 0, 12, 0, 0, 0, 9, 9, 9, 9])
        = some (ByteSlice.ofList [9, 9, 9, 9]) :=
  ⟨by
    have h := (nlmAlignOf_rounds_up.1 17 (by decide) (by decide)).2
    have h4 := (nlmAlignOf_rounds_up.1 17 (by decide) (by decide)).1
    omega,
   (nlmAlignOf_rounds_up.1 20 (by decide) (by decide)).2.2.2.2 (by decide),
   (nlmAlignOf_rounds_up.2 (ByteSlice.ofList
      [20, 0, 0, 0, 16, 0, 5, 0, 2, 0, 0, 0, 0, 0, 0, 0, 12, 0, 0, 0, 9, 9, 9, 9])
      (by decide) (by decide) (by decide)).1⟩

/-! ## Frames of other types -/

/-- C17. A frame `f` with the expected sequence and the bound pid whose type is none of
`DONE`, `ERROR` and `AUDIT_GET` is passed over by `AuditGetReply`: the loop over a batch
that begins with `f` ends as the loop over the rest of the batch; the result on receives
whose first batch begins with `f` is the result on the same receives with `f` taken out
of the first batch; and a receive that holds `f` alone is as if it had not happened. -/
theorem AuditGetReply_ignores_other (k : AuditConsts) (pid seq : Nat) (f : NetlinkMessage)
    (hs : f.Header.Seq = seq) (hp : f.Header.Pid = pid)
    (h1 : f.Header.Typ ≠ NLMSG_DONE) (h2 : f.Header.Typ ≠ NLMSG_ERROR)
    (h3 : f.Header.Typ ≠ k.AUDIT_GET) :
    (∀ ms, replyRange k (.netlink pid) seq (f :: ms) = replyRange k (.netlink pid) seq ms)
      ∧ (∀ (bytesize : Int) (r r0 : RecvResult) (rs : List RecvResult)
          (ms : List NetlinkMessage),
          Receive bytesize r = .ret (f :: ms, none) → Receive bytesize r0 = .ret (ms, none) →
          AuditGetReply k (.netlink pid) bytesize seq (r :: rs)
            = AuditGetReply k (.netlink pid) bytesize seq (r0 :: rs))
      ∧ (∀ (bytesize : Int) (r : RecvResult) (rs : List RecvResult),
          Receive bytesize r = .ret ([f], none) →
          AuditGetReply k (.netlink pid) bytesize seq (r :: rs)
            = AuditGetReply k (.netlink pid) bytesize seq rs) := by
  have hrange : ∀ ms, replyRange k (.netlink pid) seq (f :: ms)
      = replyRange k (.netlink pid) seq ms := by
    intro ms
    rw [replyRange]
    simp only [hs, hp, h1, h2, h3, ne_eq, not_true_eq_false, if_false]
  refine ⟨hrange, ?_, ?_⟩
  · intro bytesize r r0 rs ms hr hr0
    rw [AuditGetReply_cons k _ bytesize seq r rs _ hr,
      AuditGetReply_cons k _ bytesize seq r0 rs _ hr0, hrange]
  · intro bytesize r rs hr
    rw [AuditGetReply_cons k _ bytesize seq r rs _ hr, hrange]
    simp only [replyRange, Run.bind_ret]

/-- C17, at a frame of type 1300 in a receive of its own, followed by a receive with a
`DONE` frame. -/
theorem AuditGetReply_ignores_other_witness :
    AuditGetReply linuxConsts (.netlink 77) 32 5
        [recvInto 32 (frameBytes 1300 5 77 []), recvInto 32 (frameBytes NLMSG_DONE 5 77 [])]
      = AuditGetReply linuxConsts (.netlink 77) 32 5
          [recvInto 32 (frameBytes NLMSG_DONE 5 77 [])] :=
  (AuditGetReply_ignores_other linuxConsts 77 5
    { Header := { Len := 16, Typ := 1300, Flags := 0, Seq := 5, Pid := 77 },
      Data := { elems := [], room := List.replicate 16 0 } }
    (by decide) (by decide) (by decide) (by decide) (by decide)).2.2 32
    (recvInto 32 (frameBytes 1300 5 77 [])) [recvInto 32 (frameBytes NLMSG_DONE 5 77 [])]
    (by decide)

end Libaudit
